import Mathlib

/-!
# msdf-atlas-gen: the C++ metrics exporter (cpp-export.cpp)

A shallow embedding of `escapeCppString` and `exportCPP` and the properties
of the exporter's specification that are settled on it.

Conventions of the embedding.
* A C string (`const char*`) is the list of the bytes before its terminator;
  the loops that scan one stop at the first zero byte or at the end of the list.
* `int` values are `Int`, `unicode_t` (`uint32_t`) values are `Nat`; the
  conversion `int(x)` and the increment of an `int` wrap explicitly
  (`wrapInt32`).
* `double` values are elements of a type `D` that comes with the operations
  the exporter uses (`DoubleOps`); no law is assumed of them, so every theorem
  stated for all `D` holds of IEEE-754 arithmetic too.  `binary64` is the
  instance of round-to-nearest-even arithmetic on the finite doubles,
  `checked64` the same arithmetic with divisions by zero made visible and
  `overflow64` the one with overflow made visible as well.
* The text of a `%.17g` write is taken by its value: `format17` is the value
  written for a finite double and `parseDouble` the double read from a value.
* The text written to the destination is the list of the `fputs` and
  `fprintf` calls made, one constructor of `Out` for every call site, with
  the arguments of the call.
-/

namespace MsdfAtlas

set_option linter.unusedVariables false

/-! ## Data model -/

/-- Modelled from the spec: the vertical-axis convention `YDirection` of
types.h (bottom-up or top-down). -/
inductive YDirection
  | BOTTOM_UP
  | TOP_DOWN
  deriving DecidableEq, Repr

/-- Modelled from the spec: the image kinds `ImageType` of types.h, with the
enumerators that `imageTypeString` switches over. -/
inductive ImageType
  | HARD_MASK
  | SOFT_MASK
  | SDF
  | PSDF
  | MSDF
  | MTSDF
  deriving DecidableEq, Repr

/-- The operations on `double` that the exporter performs. `truthy x` is the
conversion of `x` to `bool` in a condition, that is `x != 0`. -/
structure DoubleOps (D : Type) where
  /-- Conversion of an `int` to `double`. -/
  ofInt : Int → D
  /-- Unary minus. -/
  neg : D → D
  /-- Addition. -/
  add : D → D → D
  /-- Subtraction. -/
  sub : D → D → D
  /-- Multiplication. -/
  mul : D → D → D
  /-- Division. -/
  div : D → D → D
  /-- The literal `.5`. -/
  half : D
  /-- Conversion to `bool`: the value compares unequal to zero. -/
  truthy : D → Bool

/-- Modelled from the spec: `msdfgen::Range`, the lower and upper bound of the
distance-field range. -/
structure Range (D : Type) where
  lower : D
  upper : D

/-- `CppAtlasMetrics::GridMetrics` of cpp-export.h; `originX` and `originY`
are pointers that may be null. -/
structure GridMetrics (D : Type) where
  cellWidth : Int
  cellHeight : Int
  columns : Int
  rows : Int
  originX : Option D
  originY : Option D
  spacing : Int

/-- `CppAtlasMetrics` of cpp-export.h. -/
structure CppAtlasMetrics (D : Type) where
  distanceRange : Range D
  size : D
  width : Int
  height : Int
  yDirection : YDirection
  grid : Option (GridMetrics D)

/-- Modelled from the spec: `msdfgen::FontMetrics`, the fields that
`exportCPP` reads. -/
structure FontMetrics (D : Type) where
  lineHeight : D
  ascenderY : D
  descenderY : D
  underlineY : D

/-- A quad as `getQuadPlaneBounds` and `getQuadAtlasBounds` return it through
their four reference parameters `l, b, r, t`. -/
structure Bounds (D : Type) where
  l : D
  b : D
  r : D
  t : D

/-- Modelled from the spec: `GlyphGeometry` (GlyphGeometry.h), as the values
its accessors `getCodepoint`, `getAdvance`, `getQuadPlaneBounds` and
`getQuadAtlasBounds` return. The codepoint is a `unicode_t`, an unsigned
32-bit integer. -/
structure GlyphGeometry (D : Type) where
  codepoint : Nat
  advance : D
  planeBounds : Bounds D
  atlasBounds : Bounds D

/-- Modelled from the spec: `FontGeometry` (FontGeometry.h), as the values
`getMetrics` and `getGlyphs` return. -/
structure FontGeometry (D : Type) where
  metrics : FontMetrics D
  glyphs : List (GlyphGeometry D)

/-! ## Machine integers -/

/-- The value of an integer after conversion to a 32-bit `int`
(two's complement). -/
def wrapInt32 (x : Int) : Int := (x + 2147483648) % 4294967296 - 2147483648

/-- The value of an integer after conversion to `uint32_t`. -/
def toUInt32 (x : Int) : Nat := (x % 4294967296).toNat

/-! ## The written text -/

/-- One `fputs` or `fprintf` call of `exportCPP`, with its arguments. -/
inductive Out (D : Type)
  /-- Line 95: the fixed preamble. -/
  | preamble
  /-- Line 102: `atlas_t atlas = {`. -/
  | atlasOpen
  /-- Line 106: `.distanceRange=%.17g,`. -/
  | distanceRange (x : D)
  /-- Line 107: `.distanceRangeMiddle=%.17g,`. -/
  | distanceRangeMiddle (x : D)
  /-- Line 109: `.size=%.17g,`. -/
  | size (x : D)
  /-- Line 110: `.width=%d,`. -/
  | width (n : Int)
  /-- Line 111: `.height=%d,`. -/
  | height (n : Int)
  /-- Lines 114 and 134: `};`. -/
  | recordClose
  /-- Line 125: `template<>metrics_t font<%d>::metrics={`. -/
  | metricsOpen (i : Int)
  /-- Line 129: `.lineHeight=%.17g,`. -/
  | lineHeight (x : D)
  /-- Line 130: `.ascender=%.17g,`. -/
  | ascender (x : D)
  /-- Line 131: `.descender=%.17g,`. -/
  | descender (x : D)
  /-- Line 132: `.underlineY=%.17g,`. -/
  | underlineY (x : D)
  /-- Line 137: the head of `font<%d>::glyph` up to `list[] = {`. -/
  | glyphFnOpen (i : Int)
  /-- Lines 141 and 186: `{` for the first entry, `,{` for the others. -/
  | entryOpen (firstGlyph : Bool)
  /-- Line 142: `.codepoint=%u,`. -/
  | codepoint (u : Nat)
  /-- Line 143: `.advance=%.17g`. -/
  | advance (x : D)
  /-- Line 149: `,.planeBounds={.left=,.bottom=,.right=,.top=}`. -/
  | planeBoundsBottomUp (left bottom right top : D)
  /-- Line 152: `,.planeBounds={.left=,.top=,.right=,.bottom=}`. -/
  | planeBoundsTopDown (left top right bottom : D)
  /-- Line 160: `,.atlasBounds={.left=,.bottom=,.right=,.top=}`. -/
  | atlasBoundsBottomUp (left bottom right top : D)
  /-- Line 168: `,.atlasBounds={.left=,.top=,.right=,.bottom=}`. -/
  | atlasBoundsTopDown (left top right bottom : D)
  /-- Lines 177 and 188: `}`. -/
  | entryClose
  /-- Line 180: `};auto gmap=mapbox::eternal::map<uint32_t,size_t>({`. -/
  | gmapOpen
  /-- Line 187: `%d,%d`. -/
  | pair (key : Int) (value : Int)
  /-- Line 192: `});auto it=gmap.find(code);...return nullptr;}`. -/
  | gmapClose
  /-- Line 199: the closing brace of the namespace and a newline. -/
  | fileEnd
  deriving DecidableEq, Repr

/-- What `exportCPP` does to the file system, in order. -/
inductive FileAct (D : Type)
  /-- Line 92: `fopen(filename, "w")`. -/
  | fopen (filename : String)
  /-- A write to the opened stream. -/
  | write (o : Out D)
  /-- Line 200: `fclose(f)`. -/
  | fclose
  deriving DecidableEq, Repr

/-! ## exportCPP -/

variable {D : Type}

/-- Line 105: the image type is one of the four distance-field kinds. -/
def isDistanceField (imageType : ImageType) : Bool :=
  imageType == ImageType.SDF || imageType == ImageType.PSDF ||
    imageType == ImageType.MSDF || imageType == ImageType.MTSDF

/-- Lines 102-114: the atlas properties. -/
def atlasProperties (ops : DoubleOps D) (imageType : ImageType)
    (metrics : CppAtlasMetrics D) : List (Out D) :=
  [Out.atlasOpen] ++
  (if isDistanceField imageType then
    [Out.distanceRange (ops.sub metrics.distanceRange.upper metrics.distanceRange.lower),
     Out.distanceRangeMiddle
       (ops.mul ops.half (ops.add metrics.distanceRange.lower metrics.distanceRange.upper))]
   else []) ++
  [Out.size metrics.size, Out.width metrics.width, Out.height metrics.height,
   Out.recordClose]

/-- Line 127: `yFactor`, -1 under TOP_DOWN and 1 otherwise. -/
def yFactor (ops : DoubleOps D) (metrics : CppAtlasMetrics D) : D :=
  if metrics.yDirection = YDirection.TOP_DOWN then ops.ofInt (-1) else ops.ofInt 1

/-- Lines 125-134: the metrics of font `i`. -/
def fontMetricsRecord (ops : DoubleOps D) (metrics : CppAtlasMetrics D) (i : Int)
    (font : FontGeometry D) : List (Out D) :=
  [Out.metricsOpen i,
   Out.lineHeight font.metrics.lineHeight,
   Out.ascender (ops.mul (yFactor ops metrics) font.metrics.ascenderY),
   Out.descender (ops.mul (yFactor ops metrics) font.metrics.descenderY),
   Out.underlineY (ops.mul (yFactor ops metrics) font.metrics.underlineY),
   Out.recordClose]

/-- The condition `l || b || r || t` of lines 146 and 157. -/
def anyNonzero (ops : DoubleOps D) (q : Bounds D) : Bool :=
  ops.truthy q.l || ops.truthy q.b || ops.truthy q.r || ops.truthy q.t

/-- Lines 145-155: the plane bounds of a glyph. -/
def planeBoundsField (ops : DoubleOps D) (metrics : CppAtlasMetrics D)
    (glyph : GlyphGeometry D) : List (Out D) :=
  let q := glyph.planeBounds
  if anyNonzero ops q then
    match metrics.yDirection with
    | YDirection.BOTTOM_UP => [Out.planeBoundsBottomUp q.l q.b q.r q.t]
    | YDirection.TOP_DOWN => [Out.planeBoundsTopDown q.l (ops.neg q.t) q.r (ops.neg q.b)]
  else []

/-- Lines 156-176: the atlas bounds of a glyph. The divisors `width - 1` and
`height - 1` are computed on `int` and converted to `double`. -/
def atlasBoundsField (ops : DoubleOps D) (metrics : CppAtlasMetrics D)
    (glyph : GlyphGeometry D) : List (Out D) :=
  let q := glyph.atlasBounds
  if anyNonzero ops q then
    match metrics.yDirection with
    | YDirection.BOTTOM_UP =>
      [Out.atlasBoundsBottomUp
        (ops.div q.l (ops.ofInt (metrics.width - 1)))
        (ops.div q.b (ops.ofInt (metrics.height - 1)))
        (ops.div q.r (ops.ofInt (metrics.width - 1)))
        (ops.div q.t (ops.ofInt (metrics.height - 1)))]
    | YDirection.TOP_DOWN =>
      [Out.atlasBoundsTopDown
        (ops.div q.l (ops.ofInt (metrics.width - 1)))
        (ops.div (ops.sub (ops.ofInt metrics.height) q.t) (ops.ofInt (metrics.height - 1)))
        (ops.div q.r (ops.ofInt (metrics.width - 1)))
        (ops.div (ops.sub (ops.ofInt metrics.height) q.b) (ops.ofInt (metrics.height - 1)))]
  else []

/-- Lines 141-177: the table entry of one glyph whose codepoint is not zero. -/
def glyphEntry (ops : DoubleOps D) (metrics : CppAtlasMetrics D) (firstGlyph : Bool)
    (glyph : GlyphGeometry D) : List (Out D) :=
  [Out.entryOpen firstGlyph, Out.codepoint glyph.codepoint, Out.advance glyph.advance] ++
  planeBoundsField ops metrics glyph ++
  atlasBoundsField ops metrics glyph ++
  [Out.entryClose]

/-- Lines 139-179: the loop over the glyphs of a font that writes the table;
`firstGlyph` is the loop's flag. -/
def glyphTableLoop (ops : DoubleOps D) (metrics : CppAtlasMetrics D) :
    Bool → List (GlyphGeometry D) → List (Out D)
  | _, [] => []
  | firstGlyph, glyph :: rest =>
    if glyph.codepoint ≠ 0 then
      glyphEntry ops metrics firstGlyph glyph ++ glyphTableLoop ops metrics false rest
    else
      glyphTableLoop ops metrics firstGlyph rest

/-- Lines 184-191: the loop over the glyphs of a font that writes the index;
`i` is the `int` counter and `firstGlyph` the flag. -/
def glyphIndexLoop : Int → Bool → List (GlyphGeometry D) → List (Out D)
  | _, _, [] => []
  | i, firstGlyph, glyph :: rest =>
    if glyph.codepoint ≠ 0 then
      [Out.entryOpen firstGlyph, Out.pair (wrapInt32 glyph.codepoint) i, Out.entryClose] ++
        glyphIndexLoop (wrapInt32 (i + 1)) false rest
    else
      glyphIndexLoop i firstGlyph rest

/-- Lines 137-179: the glyph table of font `i`. -/
def glyphTable (ops : DoubleOps D) (metrics : CppAtlasMetrics D) (i : Int)
    (font : FontGeometry D) : List (Out D) :=
  Out.glyphFnOpen i :: glyphTableLoop ops metrics true font.glyphs

/-- Lines 180-192: the codepoint index of a font and the end of its accessor. -/
def glyphIndex (font : FontGeometry D) : List (Out D) :=
  Out.gmapOpen :: (glyphIndexLoop 0 true font.glyphs ++ [Out.gmapClose])

/-- Lines 117-193: the body of the loop over the fonts, for font `i`. -/
def fontSection (ops : DoubleOps D) (metrics : CppAtlasMetrics D) (i : Nat)
    (font : FontGeometry D) : List (Out D) :=
  fontMetricsRecord ops metrics i font ++ glyphTable ops metrics i font ++ glyphIndex font

/-- Lines 95-199: everything written to the opened stream. `fonts` is the
array the pointer designates, read at the indices below `fontCount`; the
second loop over the fonts (lines 195-197) writes nothing. -/
def exportText (ops : DoubleOps D) (fonts : Nat → FontGeometry D) (fontCount : Int)
    (imageType : ImageType) (metrics : CppAtlasMetrics D) : List (Out D) :=
  [Out.preamble] ++ atlasProperties ops imageType metrics ++
  (List.range fontCount.toNat).flatMap (fun i => fontSection ops metrics i (fonts i)) ++
  [Out.fileEnd]

/-- The function `exportCPP`, lines 88-202: the value it returns and what it did
to the file system. `fopenOk` says of which file names `fopen(_, "w")` succeeds. -/
def exportCPP (ops : DoubleOps D) (fopenOk : String → Bool)
    (fonts : Nat → FontGeometry D) (fontCount : Int) (imageType : ImageType)
    (metrics : CppAtlasMetrics D) (filename : String) (kerning : Bool) :
    Bool × List (FileAct D) :=
  if metrics.yDirection = YDirection.TOP_DOWN then
    (false, [])
  else if ¬ fopenOk filename then
    (false, [FileAct.fopen filename])
  else
    (true, [FileAct.fopen filename] ++
      (exportText ops fonts fontCount imageType metrics).map FileAct.write ++
      [FileAct.fclose])

/-! ## Reading the written text -/

/-- The codepoints of the glyph-table entries of a text, in order: the
arguments of the `.codepoint=%u,` writes. -/
def tableCodepoints : List (Out D) → List Nat
  | [] => []
  | Out.codepoint u :: rest => u :: tableCodepoints rest
  | _ :: rest => tableCodepoints rest

/-- The entries of the codepoint index of a text, in order: the arguments
(key, value) of the `%d,%d` writes. -/
def indexEntries : List (Out D) → List (Int × Int)
  | [] => []
  | Out.pair key value :: rest => (key, value) :: indexEntries rest
  | _ :: rest => indexEntries rest

/-- The number of closed entries (`}` of lines 177 and 188) of a text. -/
def entryCount : List (Out D) → Nat
  | [] => 0
  | Out.entryClose :: rest => entryCount rest + 1
  | _ :: rest => entryCount rest

/-- The plane-bounds fields of a text, in order. -/
def planeBoundsFields : List (Out D) → List (Out D)
  | [] => []
  | Out.planeBoundsBottomUp l b r t :: rest =>
    Out.planeBoundsBottomUp l b r t :: planeBoundsFields rest
  | Out.planeBoundsTopDown l t r b :: rest =>
    Out.planeBoundsTopDown l t r b :: planeBoundsFields rest
  | _ :: rest => planeBoundsFields rest

/-- The atlas-bounds fields of a text, in order. -/
def atlasBoundsFields : List (Out D) → List (Out D)
  | [] => []
  | Out.atlasBoundsBottomUp l b r t :: rest =>
    Out.atlasBoundsBottomUp l b r t :: atlasBoundsFields rest
  | Out.atlasBoundsTopDown l t r b :: rest =>
    Out.atlasBoundsTopDown l t r b :: atlasBoundsFields rest
  | _ :: rest => atlasBoundsFields rest

/-- The glyphs of a font that get a table entry: those whose codepoint is not
zero, in the font's order. -/
def includedGlyphs (glyphs : List (GlyphGeometry D)) : List (GlyphGeometry D) :=
  glyphs.filter (fun glyph => glyph.codepoint ≠ 0)

/-- Line 192, the body of the accessor `font<i>::glyph(code)` that the export
writes: `gmap.find(code)` on the map built from the index entries, whose keys
are converted to the map's key type `uint32_t`, and on a hit the position
`it->second` in `list`. Of several entries with the key of `code` the first
is taken. -/
def emittedGlyphLookup (gmap : List (Int × Int)) (code : Nat) : Option Int :=
  match gmap.find? (fun entry => toUInt32 entry.1 == code) with
  | some entry => some entry.2
  | none => none

/-! ## escapeCppString

Bytes are natural numbers below 256. The cases of the switch are values below
128, so a `char` that is signed takes the same branches as an unsigned one. -/

/-- The bytes of a C string held in a buffer: those before the first zero byte.
This is what `outStr += s` appends. -/
def cstr : List Nat → List Nat
  | [] => []
  | c :: rest => if c = 0 then [] else c :: cstr rest

/-- The string `"0123456789abcdef"` of line 59. -/
def hexDigits : List Nat :=
  [48, 49, 50, 51, 52, 53, 54, 55, 56, 57, 97, 98, 99, 100, 101, 102]

/-- The case labels of lines 29-57. -/
def controlCases : List Nat :=
  [0x00, 0x01, 0x02, 0x03, 0x04, 0x05, 0x06, 0x07, 0x08, 0x0b, 0x0c, 0x0e, 0x0f,
   0x10, 0x11, 0x12, 0x13, 0x14, 0x15, 0x16, 0x17, 0x18, 0x19, 0x1a, 0x1b, 0x1c, 0x1d,
   0x1e, 0x1f]

/-- Lines 13-64, the switch on the byte `c = *str`: the buffer `uval` and the
string `outStr` after it. Backslash is 92, the double quote 34, newline 10,
carriage return 13, tab 9; `n`, `r`, `t` are 110, 114, 116. -/
def escapeStep (uval outStr : List Nat) (c : Nat) : List Nat × List Nat :=
  if c = 92 then (uval, outStr ++ cstr [92, 92, 0])
  else if c = 34 then (uval, outStr ++ cstr [92, 34, 0])
  else if c = 10 then (uval, outStr ++ cstr [92, 110, 0])
  else if c = 13 then (uval, outStr ++ cstr [92, 114, 0])
  else if c = 9 then (uval, outStr ++ cstr [92, 116, 0])
  else if c ∈ controlCases then
    let uval4 := uval.set 4 (48 + (if 16 ≤ c then 1 else 0))
    let uval5 := uval4.set 5 (hexDigits.getD (c &&& 0x0f) 0)
    (uval5, outStr ++ cstr uval5)
  else (uval, outStr ++ [c])

/-- Lines 12-66, the loop `while (*str)`: it ends at the first zero byte, or at
the end of the list, where the terminator of the string is. -/
def escapeLoop (uval outStr : List Nat) : List Nat → List Nat
  | [] => outStr
  | c :: rest =>
    if c = 0 then outStr
    else escapeLoop (escapeStep uval outStr c).1 (escapeStep uval outStr c).2 rest

/-- The function `escapeCppString`, lines 9-68; `uval` starts as the seven bytes
of `"\\u0000"`. -/
def escapeCppString (str : List Nat) : List Nat :=
  escapeLoop [92, 117, 48, 48, 48, 48, 0] [] str

/-- The lowercase hexadecimal digit of a value below 16. -/
def hexDigit (d : Nat) : Nat := if d < 10 then 48 + d else 87 + d

/-- The image of one byte as the specification of the escaper gives it:
backslash, double quote, newline, carriage return and tab get their
two-character escapes, every other byte from 0x01 to 0x1F the escape
`\u00XX` with the two lowercase hexadecimal digits of the byte, and every
other byte is kept. -/
def escapeByteSpec (c : Nat) : List Nat :=
  if c = 92 then [92, 92]
  else if c = 34 then [92, 34]
  else if c = 10 then [92, 110]
  else if c = 13 then [92, 114]
  else if c = 9 then [92, 116]
  else if 1 ≤ c ∧ c ≤ 31 then [92, 117, 48, 48, hexDigit (c / 16), hexDigit (c % 16)]
  else [c]

/-- The value of a hexadecimal digit, of either case. -/
def hexValue (d : Nat) : Option Nat :=
  if 48 ≤ d ∧ d ≤ 57 then some (d - 48)
  else if 97 ≤ d ∧ d ≤ 102 then some (d - 87)
  else if 65 ≤ d ∧ d ≤ 70 then some (d - 55)
  else none

/-- Where the unescape stands in the text: outside an escape, after a
backslash, after the `u` of an escape, after its first and second `0`, and after
its first hexadecimal digit, of value `high`. -/
inductive UnescapeState
  | plain
  | afterBackslash
  | afterU
  | afterU0
  | afterU00
  | afterU00X (high : Nat)

/-- The unescape of the body of a C++ string literal from a given state, as the
specification names it: the escapes of backslash, double quote, `n`, `r`, `t`
and `u00XX` are replaced by the byte they stand for and every other byte is
kept. A backslash that starts none of these escapes, and a double quote or a
newline outside an escape, are not part of a literal: the result is `none`. -/
def unescapeFrom : UnescapeState → List Nat → Option (List Nat)
  | UnescapeState.plain, [] => some []
  | _, [] => none
  | UnescapeState.plain, c :: rest =>
    if c = 92 then unescapeFrom UnescapeState.afterBackslash rest
    else if c = 34 ∨ c = 10 then none
    else (unescapeFrom UnescapeState.plain rest).map (fun s => c :: s)
  | UnescapeState.afterBackslash, e :: rest =>
    if e = 92 then (unescapeFrom UnescapeState.plain rest).map (fun s => 92 :: s)
    else if e = 34 then (unescapeFrom UnescapeState.plain rest).map (fun s => 34 :: s)
    else if e = 110 then (unescapeFrom UnescapeState.plain rest).map (fun s => 10 :: s)
    else if e = 114 then (unescapeFrom UnescapeState.plain rest).map (fun s => 13 :: s)
    else if e = 116 then (unescapeFrom UnescapeState.plain rest).map (fun s => 9 :: s)
    else if e = 117 then unescapeFrom UnescapeState.afterU rest
    else none
  | UnescapeState.afterU, z :: rest =>
    if z = 48 then unescapeFrom UnescapeState.afterU0 rest else none
  | UnescapeState.afterU0, z :: rest =>
    if z = 48 then unescapeFrom UnescapeState.afterU00 rest else none
  | UnescapeState.afterU00, h :: rest =>
    match hexValue h with
    | some high => unescapeFrom (UnescapeState.afterU00X high) rest
    | none => none
  | UnescapeState.afterU00X high, h :: rest =>
    match hexValue h with
    | some low => (unescapeFrom UnescapeState.plain rest).map (fun s => (16 * high + low) :: s)
    | none => none

/-- The unescape of the body of a C++ string literal. -/
def unescapeCpp (text : List Nat) : Option (List Nat) :=
  unescapeFrom UnescapeState.plain text

/-! ## Double precision -/

/-- The integer nearest to a rational, the even one of two at equal distance. -/
def roundHalfEven (q : ℚ) : Int :=
  let f := ⌊q⌋
  let d := q - f
  if d < 1/2 then f else if 1/2 < d then f + 1 else if f % 2 = 0 then f else f + 1

/-- The exponent `e` with `2^e ≤ |q| < 2^(e+1)`, for `q` other than zero. -/
def floorLog2 (q : ℚ) : Int :=
  let e : Int := (Nat.log2 q.num.natAbs : Int) - (Nat.log2 q.den : Int)
  if (2 : ℚ) ^ e ≤ |q| then e else e - 1

/-- The exponent of the last place of the binary64 numbers around `q`: 53
significant bits, and no less than the exponent -1074 of the subnormal numbers. -/
def quantum (q : ℚ) : Int := max (floorLog2 q - 52) (-1074)

/-- The binary64 number nearest to `q`, ties to even (for `q` within the finite
range of binary64). -/
def rne (q : ℚ) : ℚ :=
  if q = 0 then 0 else (roundHalfEven (q / (2 : ℚ) ^ quantum q) : ℚ) * (2 : ℚ) ^ quantum q

/-- IEEE-754 binary64 arithmetic with round-to-nearest-even, on the finite
doubles taken as rationals: every operation returns the double nearest to the
exact result. An `int` has 32 bits, so its conversion is exact, as are unary
minus and the literal `.5`. The instance is meant for finite operands, divisors
other than zero and results within the finite range. -/
def binary64 : DoubleOps ℚ where
  ofInt := fun n => (n : ℚ)
  neg := fun x => -x
  add := fun x y => rne (x + y)
  sub := fun x y => rne (x - y)
  mul := fun x y => rne (x * y)
  div := fun x y => rne (x / y)
  half := 1 / 2
  truthy := fun x => decide (x ≠ 0)

/-! ## Sample inputs -/

/-- A bottom-up atlas of the given width and height. -/
def sampleMetrics (width height : Int) : CppAtlasMetrics ℚ where
  distanceRange := { lower := -1, upper := 1 }
  size := 32
  width := width
  height := height
  yDirection := YDirection.BOTTOM_UP
  grid := none

/-- A top-down atlas of 13 by 15 pixels. -/
def topDownMetrics : CppAtlasMetrics ℚ :=
  { sampleMetrics 13 15 with yDirection := YDirection.TOP_DOWN }

/-- A glyph with the given codepoint and atlas box, advance 1/2 and plane box
(0, 0, 1/2, 3/4). -/
def sampleGlyph (codepoint : Nat) (atlasBounds : Bounds ℚ) : GlyphGeometry ℚ where
  codepoint := codepoint
  advance := 1 / 2
  planeBounds := { l := 0, b := 0, r := 1 / 2, t := 3 / 4 }
  atlasBounds := atlasBounds

/-- A glyph without a codepoint and with empty boxes. -/
def sampleLigature : GlyphGeometry ℚ where
  codepoint := 0
  advance := 1
  planeBounds := { l := 0, b := 0, r := 0, t := 0 }
  atlasBounds := { l := 0, b := 0, r := 0, t := 0 }

/-- A font with the given glyphs. -/
def sampleFont (glyphs : List (GlyphGeometry ℚ)) : FontGeometry ℚ where
  metrics := { lineHeight := 5 / 4, ascenderY := 1, descenderY := -1 / 4, underlineY := -1 / 8 }
  glyphs := glyphs

/-- The font of the end-to-end scenario: codepoint 65 with atlas box
(0, 0, 12, 14), and a glyph with codepoint 0. -/
def scenarioFont : FontGeometry ℚ :=
  sampleFont [sampleGlyph 65 { l := 0, b := 0, r := 12, t := 14 }, sampleLigature]

/-- A file system in which every file can be opened for writing. -/
def allWritable : String → Bool := fun _ => true

/-! ## More readings of the written text -/

/-- A write of the metrics record of a font, lines 125-132, other than its
closing `};`, which the atlas properties end with as well. -/
def isMetricsField : Out D → Bool
  | Out.metricsOpen _ => true
  | Out.lineHeight _ => true
  | Out.ascender _ => true
  | Out.descender _ => true
  | Out.underlineY _ => true
  | _ => false

/-- The writes of the metrics records of a text, in order. -/
def metricsFields (text : List (Out D)) : List (Out D) :=
  text.filter isMetricsField

/-- A write of one of the TOP_DOWN cases of the two switches, lines 152 and 168. -/
def isTopDownField : Out D → Bool
  | Out.planeBoundsTopDown _ _ _ _ => true
  | Out.atlasBoundsTopDown _ _ _ _ => true
  | _ => false

/-- A finite double: a rational that rounding to binary64 leaves as it is. -/
abbrev isDouble (x : ℚ) : Prop := rne x = x

/-- The `double` arguments of a write, in the order of the format. -/
def outValues : Out D → List D
  | Out.distanceRange x => [x]
  | Out.distanceRangeMiddle x => [x]
  | Out.size x => [x]
  | Out.lineHeight x => [x]
  | Out.ascender x => [x]
  | Out.descender x => [x]
  | Out.underlineY x => [x]
  | Out.advance x => [x]
  | Out.planeBoundsBottomUp l b r t => [l, b, r, t]
  | Out.planeBoundsTopDown l t r b => [l, t, r, b]
  | Out.atlasBoundsBottomUp l b r t => [l, b, r, t]
  | Out.atlasBoundsTopDown l t r b => [l, t, r, b]
  | _ => []

/-- Double precision that keeps track of divisions by zero: `none` is the
result of a division by zero, which is no finite double, and of every
operation on such a result; the other results are those of `binary64`. -/
def checked64 : DoubleOps (Option ℚ) where
  ofInt := fun n => some (n : ℚ)
  neg := fun x => x.map (fun a => -a)
  add := fun x y =>
    match x, y with
    | some a, some b => some (rne (a + b))
    | _, _ => none
  sub := fun x y =>
    match x, y with
    | some a, some b => some (rne (a - b))
    | _, _ => none
  mul := fun x y =>
    match x, y with
    | some a, some b => some (rne (a * b))
    | _, _ => none
  div := fun x y =>
    match x, y with
    | some a, some b => if b = 0 then none else some (rne (a / b))
    | _, _ => none
  half := some (1 / 2)
  truthy := fun x =>
    match x with
    | some a => decide (a ≠ 0)
    | none => true

/-- An atlas of the given width, height and convention for `checked64`. -/
def checkedMetrics (width height : Int) (yDirection : YDirection) :
    CppAtlasMetrics (Option ℚ) where
  distanceRange := { lower := some (-1), upper := some 1 }
  size := some 32
  width := width
  height := height
  yDirection := yDirection
  grid := none

/-- The glyph 65 with the atlas box (0, 0, 12, 14) for `checked64`. -/
def checkedGlyph : GlyphGeometry (Option ℚ) where
  codepoint := 65
  advance := some (1 / 2)
  planeBounds := { l := some 0, b := some 0, r := some (1 / 2), t := some (3 / 4) }
  atlasBounds := { l := some 0, b := some 0, r := some 12, t := some 14 }

/-! ## The tokens of a string literal -/

/-- A lowercase hexadecimal digit. -/
def isLowerHexDigit (d : Nat) : Bool :=
  (decide (48 ≤ d) && decide (d ≤ 57)) || (decide (97 ≤ d) && decide (d ≤ 102))

/-- One of the escapes the escaper writes: a backslash followed by a backslash,
a double quote, `n`, `r` or `t`, or by `u00` and two hexadecimal digits. -/
def isEscape : List Nat → Bool
  | [a, e] =>
    decide (a = 92) &&
      (decide (e = 92) || decide (e = 34) || decide (e = 110) || decide (e = 114) ||
        decide (e = 116))
  | [a, u, z1, z2, h1, h2] =>
    decide (a = 92) && decide (u = 117) && decide (z1 = 48) && decide (z2 = 48) &&
      isLowerHexDigit h1 && isLowerHexDigit h2
  | _ => false

/-- A byte that stands for itself in a string literal: no control byte, no
double quote and no backslash. -/
def isPlainByte : List Nat → Bool
  | [c] => decide (32 ≤ c) && decide (c ≠ 34) && decide (c ≠ 92)
  | _ => false

/-- An escape or a plain byte. -/
def isToken (tok : List Nat) : Bool := isEscape tok || isPlainByte tok

/-- The first token of a text and what follows it, if the text starts with a
token. -/
def splitToken : List Nat → Option (List Nat × List Nat)
  | [] => none
  | c :: rest =>
    if c = 92 then
      match rest with
      | [] => none
      | e :: rest1 =>
        if e = 92 ∨ e = 34 ∨ e = 110 ∨ e = 114 ∨ e = 116 then some ([92, e], rest1)
        else if e = 117 then
          match rest1 with
          | z1 :: z2 :: h1 :: h2 :: rest2 =>
            if z1 = 48 ∧ z2 = 48 ∧ isLowerHexDigit h1 = true ∧ isLowerHexDigit h2 = true then
              some ([92, 117, 48, 48, h1, h2], rest2)
            else none
          | _ => none
        else none
    else if 32 ≤ c ∧ c ≠ 34 then some ([c], rest)
    else none

/-! ## Rendering and reading of doubles -/

/-- The decimal exponent `e` with `10^e ≤ |q| < 10^(e+1)`, for `q` other than
zero. -/
def floorLog10 (q : ℚ) : Int := Int.log 10 |q|

/-- Modelled from the spec: the conversion `%.17g` of `fprintf`, which is code
of the C library: the value of the text written for a finite double, the
double rounded to 17 significant decimal digits, to nearest, ties to even. -/
def format17 (q : ℚ) : ℚ :=
  if q = 0 then 0
  else (roundHalfEven (q / (10 : ℚ) ^ (floorLog10 q - 16)) : ℚ) * (10 : ℚ) ^ (floorLog10 q - 16)

/-- Modelled from the spec: the reader of the text written, which is no code of
this repository: the double taken from a decimal text is the double nearest to
its value, ties to even. -/
def parseDouble (text : ℚ) : ℚ := rne text

/-- Modelled from the spec: the conversion `%.17g` on a double that may not be
finite: a finite double is written as the decimal `format17` gives, an infinity
or a NaN (`none`) as `inf` or `nan`, which is no decimal. -/
def renderedDecimal : Option ℚ → Option ℚ
  | some x => some (format17 x)
  | none => none

/-- The finite double nearest to a rational, or `none` when the rounded value
is beyond the largest finite double, where the result is an infinity. -/
def finite64 (q : ℚ) : Option ℚ :=
  if |rne q| < (2 : ℚ) ^ (1024 : Int) then some (rne q) else none

/-- Double precision with overflow and division by zero: `none` is a value that
is no finite double, an infinity or a NaN, and the result of every operation on
such a value; the finite results are those of `binary64`. -/
def overflow64 : DoubleOps (Option ℚ) where
  ofInt := fun n => some (n : ℚ)
  neg := fun x => x.map (fun a => -a)
  add := fun x y =>
    match x, y with
    | some a, some b => finite64 (a + b)
    | _, _ => none
  sub := fun x y =>
    match x, y with
    | some a, some b => finite64 (a - b)
    | _, _ => none
  mul := fun x y =>
    match x, y with
    | some a, some b => finite64 (a * b)
    | _, _ => none
  div := fun x y =>
    match x, y with
    | some a, some b => if b = 0 then none else finite64 (a / b)
    | _, _ => none
  half := some (1 / 2)
  truthy := fun x =>
    match x with
    | some a => decide (a ≠ 0)
    | none => true

/-- A bottom-up atlas of 13 by 15 pixels whose distance range is from -2^1023
to 2^1023, two finite doubles. -/
def hugeRangeMetrics : CppAtlasMetrics (Option ℚ) where
  distanceRange :=
    { lower := some (-(2 : ℚ) ^ (1023 : Int)), upper := some ((2 : ℚ) ^ (1023 : Int)) }
  size := some 32
  width := 13
  height := 15
  yDirection := YDirection.BOTTOM_UP
  grid := none

/-- The font of the end-to-end scenario with its glyph 65, for arithmetics on
`Option ℚ`. -/
def checkedFont : FontGeometry (Option ℚ) where
  metrics := { lineHeight := some (5 / 4), ascenderY := some 1, descenderY := some (-1 / 4),
               underlineY := some (-1 / 8) }
  glyphs := [checkedGlyph]

/-! # Theorems -/

/-! ## Failure and success of the export -/

/-- C1: with `metrics.yDirection = TOP_DOWN`, `exportCPP` returns false and does
nothing to the file system, whatever the fonts, the image type, the file name
and the kerning flag are: the file is not opened and nothing is written. -/
theorem exportCPP_top_down_fails_without_output (ops : DoubleOps D)
    (fopenOk : String → Bool) (fonts : Nat → FontGeometry D) (fontCount : Int)
    (imageType : ImageType) (metrics : CppAtlasMetrics D) (filename : String)
    (kerning : Bool) (h : metrics.yDirection = YDirection.TOP_DOWN) :
    exportCPP ops fopenOk fonts fontCount imageType metrics filename kerning = (false, []) := by
  simp [exportCPP, h]

/-- C1 at a top-down atlas of 13 by 15 pixels with a destination that would open. -/
theorem exportCPP_top_down_fails_without_output_witness :
    topDownMetrics.yDirection = YDirection.TOP_DOWN ∧
    exportCPP binary64 allWritable (fun _ => scenarioFont) 1 ImageType.MSDF
      topDownMetrics "atlas.cpp" true = (false, []) :=
  ⟨rfl, exportCPP_top_down_fails_without_output binary64 allWritable (fun _ => scenarioFont) 1
    ImageType.MSDF topDownMetrics "atlas.cpp" true rfl⟩


/-- The export succeeds exactly under BOTTOM_UP with a destination that opens,
and then it opens the file, writes `exportText` and closes the file. -/
theorem exportCPP_eq_of_success (ops : DoubleOps D)
    (fopenOk : String → Bool) (fonts : Nat → FontGeometry D) (fontCount : Int)
    (imageType : ImageType) (metrics : CppAtlasMetrics D) (filename : String)
    (kerning : Bool)
    (h : (exportCPP ops fopenOk fonts fontCount imageType metrics filename kerning).1 = true) :
    metrics.yDirection = YDirection.BOTTOM_UP ∧ fopenOk filename = true ∧
    exportCPP ops fopenOk fonts fontCount imageType metrics filename kerning =
      (true, [FileAct.fopen filename] ++
        (exportText ops fonts fontCount imageType metrics).map FileAct.write ++
        [FileAct.fclose]) := by
  unfold exportCPP at h ⊢
  cases hy : metrics.yDirection
  · cases ho : fopenOk filename
    · simp [hy, ho] at h
    · simp [ho]
  · simp [hy] at h

/-- C2: `exportCPP` returns false if and only if the vertical convention is
TOP_DOWN or the destination cannot be opened for writing; for every other
input it returns true. -/
theorem exportCPP_fails_iff (ops : DoubleOps D)
    (fopenOk : String → Bool) (fonts : Nat → FontGeometry D) (fontCount : Int)
    (imageType : ImageType) (metrics : CppAtlasMetrics D) (filename : String)
    (kerning : Bool) :
    (exportCPP ops fopenOk fonts fontCount imageType metrics filename kerning).1 = false ↔
      (metrics.yDirection = YDirection.TOP_DOWN ∨ fopenOk filename = false) := by
  unfold exportCPP
  cases hy : metrics.yDirection
  · cases ho : fopenOk filename <;> simp
  · simp

/-! ## The glyph table -/

theorem tableCodepoints_append (xs ys : List (Out D)) :
    tableCodepoints (xs ++ ys) = tableCodepoints xs ++ tableCodepoints ys := by
  induction xs with
  | nil => rfl
  | cons x xs ih => cases x <;> simp [tableCodepoints, ih]

theorem entryCount_append (xs ys : List (Out D)) :
    entryCount (xs ++ ys) = entryCount xs + entryCount ys := by
  induction xs with
  | nil => simp [entryCount]
  | cons x xs ih => cases x <;> simp +arith [entryCount, ih]

theorem tableCodepoints_planeBoundsField (ops : DoubleOps D) (metrics : CppAtlasMetrics D)
    (glyph : GlyphGeometry D) :
    tableCodepoints (planeBoundsField ops metrics glyph) = [] := by
  simp only [planeBoundsField]
  split_ifs <;> cases metrics.yDirection <;> rfl

theorem tableCodepoints_atlasBoundsField (ops : DoubleOps D) (metrics : CppAtlasMetrics D)
    (glyph : GlyphGeometry D) :
    tableCodepoints (atlasBoundsField ops metrics glyph) = [] := by
  simp only [atlasBoundsField]
  split_ifs <;> cases metrics.yDirection <;> rfl

theorem entryCount_planeBoundsField (ops : DoubleOps D) (metrics : CppAtlasMetrics D)
    (glyph : GlyphGeometry D) :
    entryCount (planeBoundsField ops metrics glyph) = 0 := by
  simp only [planeBoundsField]
  split_ifs <;> cases metrics.yDirection <;> rfl

theorem entryCount_atlasBoundsField (ops : DoubleOps D) (metrics : CppAtlasMetrics D)
    (glyph : GlyphGeometry D) :
    entryCount (atlasBoundsField ops metrics glyph) = 0 := by
  simp only [atlasBoundsField]
  split_ifs <;> cases metrics.yDirection <;> rfl

theorem tableCodepoints_glyphEntry (ops : DoubleOps D) (metrics : CppAtlasMetrics D)
    (firstGlyph : Bool) (glyph : GlyphGeometry D) :
    tableCodepoints (glyphEntry ops metrics firstGlyph glyph) = [glyph.codepoint] := by
  simp [glyphEntry, tableCodepoints_append, tableCodepoints_planeBoundsField,
    tableCodepoints_atlasBoundsField, tableCodepoints]

theorem entryCount_glyphEntry (ops : DoubleOps D) (metrics : CppAtlasMetrics D)
    (firstGlyph : Bool) (glyph : GlyphGeometry D) :
    entryCount (glyphEntry ops metrics firstGlyph glyph) = 1 := by
  simp [glyphEntry, entryCount_append, entryCount_planeBoundsField,
    entryCount_atlasBoundsField, entryCount]

theorem tableCodepoints_glyphTableLoop (ops : DoubleOps D) (metrics : CppAtlasMetrics D)
    (glyphs : List (GlyphGeometry D)) (firstGlyph : Bool) :
    tableCodepoints (glyphTableLoop ops metrics firstGlyph glyphs) =
      (glyphs.map (fun glyph => glyph.codepoint)).filter (fun c => c ≠ 0) := by
  induction glyphs generalizing firstGlyph with
  | nil => rfl
  | cons glyph rest ih =>
    by_cases hc : glyph.codepoint = 0
    · simp [glyphTableLoop, hc, ih]
    · simp [glyphTableLoop, hc, ih, tableCodepoints_append, tableCodepoints_glyphEntry]

theorem entryCount_glyphTableLoop (ops : DoubleOps D) (metrics : CppAtlasMetrics D)
    (glyphs : List (GlyphGeometry D)) (firstGlyph : Bool) :
    entryCount (glyphTableLoop ops metrics firstGlyph glyphs) =
      ((glyphs.map (fun glyph => glyph.codepoint)).filter (fun c => c ≠ 0)).length := by
  induction glyphs generalizing firstGlyph with
  | nil => rfl
  | cons glyph rest ih =>
    by_cases hc : glyph.codepoint = 0
    · simp [glyphTableLoop, hc, ih]
    · simp [glyphTableLoop, hc, ih, entryCount_append, entryCount_glyphEntry]
      omega

/-- C3: in a successful export the text written is the preamble, the atlas
properties and, for every font in order, its metrics, glyph table and index;
the codepoints of the entries of the glyph table of a font are the codepoints
of the font's glyphs, in the font's order, without the zeros, one entry for
each of them, so that no entry has codepoint 0. -/
theorem table_codepoints_eq_filtered_glyph_codepoints (ops : DoubleOps D)
    (fopenOk : String → Bool) (fonts : Nat → FontGeometry D) (fontCount : Int)
    (imageType : ImageType) (metrics : CppAtlasMetrics D) (filename : String)
    (kerning : Bool)
    (h : (exportCPP ops fopenOk fonts fontCount imageType metrics filename kerning).1 = true) :
    (exportCPP ops fopenOk fonts fontCount imageType metrics filename kerning).2 =
      [FileAct.fopen filename] ++
        (([Out.preamble] ++ atlasProperties ops imageType metrics ++
          (List.range fontCount.toNat).flatMap (fun i =>
            fontMetricsRecord ops metrics i (fonts i) ++ glyphTable ops metrics i (fonts i) ++
              glyphIndex (fonts i)) ++
          [Out.fileEnd]).map FileAct.write) ++ [FileAct.fclose] ∧
    ∀ i : Nat,
      tableCodepoints (glyphTable ops metrics i (fonts i)) =
        ((fonts i).glyphs.map (fun glyph => glyph.codepoint)).filter (fun c => c ≠ 0) ∧
      entryCount (glyphTable ops metrics i (fonts i)) =
        (((fonts i).glyphs.map (fun glyph => glyph.codepoint)).filter (fun c => c ≠ 0)).length ∧
      0 ∉ tableCodepoints (glyphTable ops metrics i (fonts i)) := by
  obtain ⟨_, _, heq⟩ := exportCPP_eq_of_success ops fopenOk fonts fontCount imageType metrics
    filename kerning h
  refine ⟨?_, ?_⟩
  · rw [heq]; rfl
  · intro i
    have hc : tableCodepoints (glyphTable ops metrics i (fonts i)) =
        ((fonts i).glyphs.map (fun glyph => glyph.codepoint)).filter (fun c => c ≠ 0) := by
      simp only [glyphTable, tableCodepoints]
      exact tableCodepoints_glyphTableLoop ops metrics (fonts i).glyphs true
    refine ⟨hc, ?_, ?_⟩
    · simp only [glyphTable, entryCount]
      exact entryCount_glyphTableLoop ops metrics (fonts i).glyphs true
    · rw [hc]
      simp

/-- C3 at the end-to-end scenario: one font with the codepoints 65 and 0
gives a table with the one codepoint 65. -/
theorem table_codepoints_eq_filtered_glyph_codepoints_witness :
    (exportCPP binary64 allWritable (fun _ => scenarioFont) 1 ImageType.MSDF
      (sampleMetrics 13 15) "atlas.cpp" false).1 = true ∧
    tableCodepoints (glyphTable binary64 (sampleMetrics 13 15) 0 scenarioFont) = [65] ∧
    entryCount (glyphTable binary64 (sampleMetrics 13 15) 0 scenarioFont) = 1 := by
  have h : (exportCPP binary64 allWritable (fun _ => scenarioFont) 1 ImageType.MSDF
      (sampleMetrics 13 15) "atlas.cpp" false).1 = true := rfl
  have t := (table_codepoints_eq_filtered_glyph_codepoints binary64 allWritable
    (fun _ => scenarioFont) 1 ImageType.MSDF (sampleMetrics 13 15) "atlas.cpp" false h).2 0
  refine ⟨h, ?_, ?_⟩
  · exact t.1.trans (by decide)
  · exact t.2.1.trans (by decide)

/-! ## The codepoint index -/

theorem indexEntries_append (xs ys : List (Out D)) :
    indexEntries (xs ++ ys) = indexEntries xs ++ indexEntries ys := by
  induction xs with
  | nil => rfl
  | cons x xs ih => cases x <;> simp [indexEntries, ih]

theorem wrapInt32_of_small (x : Int) (h0 : -2147483648 ≤ x) (h1 : x ≤ 2147483647) :
    wrapInt32 x = x := by
  unfold wrapInt32; omega

theorem toUInt32_wrapInt32 (c : Nat) (h : c < 4294967296) :
    toUInt32 (wrapInt32 c) = c := by
  unfold toUInt32 wrapInt32; omega

theorem includedGlyphs_cons_zero (glyph : GlyphGeometry D) (rest : List (GlyphGeometry D))
    (hc : glyph.codepoint = 0) : includedGlyphs (glyph :: rest) = includedGlyphs rest := by
  simp [includedGlyphs, hc]

theorem includedGlyphs_cons_nonzero (glyph : GlyphGeometry D) (rest : List (GlyphGeometry D))
    (hc : glyph.codepoint ≠ 0) :
    includedGlyphs (glyph :: rest) = glyph :: includedGlyphs rest := by
  simp [includedGlyphs, hc]

theorem mem_includedGlyphs (glyph : GlyphGeometry D) (glyphs : List (GlyphGeometry D)) :
    glyph ∈ includedGlyphs glyphs ↔ glyph ∈ glyphs ∧ glyph.codepoint ≠ 0 := by
  simp [includedGlyphs]

/-- The index loop started at counter `n` numbers the included glyphs from `n`
on, as long as the counter stays an `int`; the key of a glyph is its codepoint
converted to `int`. -/
theorem indexEntries_glyphIndexLoop (glyphs : List (GlyphGeometry D)) (n : Nat)
    (firstGlyph : Bool) (hlen : n + (includedGlyphs glyphs).length ≤ 2147483647) :
    indexEntries (glyphIndexLoop (n : Int) firstGlyph glyphs) =
      (List.enumFrom n (includedGlyphs glyphs)).map
        (fun p => (wrapInt32 p.2.codepoint, (p.1 : Int))) := by
  induction glyphs generalizing n firstGlyph with
  | nil => rfl
  | cons glyph rest ih =>
    by_cases hc : glyph.codepoint = 0
    · rw [includedGlyphs_cons_zero glyph rest hc] at hlen ⊢
      simp only [glyphIndexLoop, hc, ne_eq, not_true_eq_false, if_false]
      exact ih n firstGlyph hlen
    · rw [includedGlyphs_cons_nonzero glyph rest hc] at hlen ⊢
      simp only [List.length_cons] at hlen
      have hw : wrapInt32 ((n : Int) + 1) = ((n + 1 : Nat) : Int) := by
        rw [wrapInt32_of_small] <;> omega
      simp only [glyphIndexLoop, hc, ne_eq, not_false_eq_true, if_true, hw]
      rw [indexEntries_append, ih (n + 1) false (by omega)]
      simp [indexEntries]

theorem indexEntries_glyphIndex (font : FontGeometry D)
    (hlen : (includedGlyphs font.glyphs).length ≤ 2147483647) :
    indexEntries (glyphIndex font) =
      (List.enumFrom 0 (includedGlyphs font.glyphs)).map
        (fun p => (wrapInt32 p.2.codepoint, (p.1 : Int))) := by
  have h := indexEntries_glyphIndexLoop font.glyphs 0 true (by omega)
  simp only [glyphIndex, indexEntries, indexEntries_append, List.append_nil]
  exact h

theorem tableCodepoints_glyphTable (ops : DoubleOps D) (metrics : CppAtlasMetrics D)
    (i : Int) (font : FontGeometry D) :
    tableCodepoints (glyphTable ops metrics i font) =
      (includedGlyphs font.glyphs).map (fun glyph => glyph.codepoint) := by
  simp only [glyphTable, tableCodepoints, tableCodepoints_glyphTableLoop, includedGlyphs,
    List.filter_map]
  rfl

/-- Every entry of the index of a font is the key and the position of an
included glyph. -/
theorem mem_indexEntries_glyphIndex (font : FontGeometry D)
    (hlen : (includedGlyphs font.glyphs).length ≤ 2147483647) (entry : Int × Int) :
    entry ∈ indexEntries (glyphIndex font) ↔
      ∃ (p : Nat) (glyph : GlyphGeometry D), (includedGlyphs font.glyphs)[p]? = some glyph ∧
        entry = (wrapInt32 glyph.codepoint, (p : Int)) := by
  rw [indexEntries_glyphIndex font hlen, List.mem_map]
  constructor
  · rintro ⟨⟨p, glyph⟩, hmem, rfl⟩
    have := List.mk_mem_enumFrom_iff_le_and_getElem?_sub.1 hmem
    exact ⟨p, glyph, by simpa using this.2, rfl⟩
  · rintro ⟨p, glyph, hget, rfl⟩
    refine ⟨(p, glyph), ?_, rfl⟩
    exact List.mk_mem_enumFrom_iff_le_and_getElem?_sub.2 ⟨Nat.zero_le p, by simpa using hget⟩

/-- C5: the lookup written into `font<i>::glyph`, run on the index of a font
whose codepoints are unsigned 32-bit values: for a codepoint `c` of a glyph of
the font with a codepoint other than zero it yields a position inside the
glyph table, and the entry there has codepoint `c`; for every other `c`, zero
among them, it yields nothing. Whichever index entry with the key `c` a lookup
takes, its position is that of a table entry with codepoint `c`. -/
theorem lookup_hits_exactly_included_codepoints (ops : DoubleOps D)
    (metrics : CppAtlasMetrics D) (i : Int) (font : FontGeometry D) (c : Nat)
    (hcp : ∀ glyph ∈ font.glyphs, glyph.codepoint < 4294967296)
    (hlen : (includedGlyphs font.glyphs).length ≤ 2147483647) :
    ((∃ glyph ∈ font.glyphs, glyph.codepoint ≠ 0 ∧ glyph.codepoint = c) →
      ∃ p : Nat, emittedGlyphLookup (indexEntries (glyphIndex font)) c = some (p : Int) ∧
        p < (tableCodepoints (glyphTable ops metrics i font)).length ∧
        (tableCodepoints (glyphTable ops metrics i font))[p]? = some c) ∧
    ((¬ ∃ glyph ∈ font.glyphs, glyph.codepoint ≠ 0 ∧ glyph.codepoint = c) →
      emittedGlyphLookup (indexEntries (glyphIndex font)) c = none) ∧
    emittedGlyphLookup (indexEntries (glyphIndex font)) 0 = none ∧
    (∀ entry ∈ indexEntries (glyphIndex font), toUInt32 entry.1 = c →
      ∃ p : Nat, entry.2 = (p : Int) ∧
        (tableCodepoints (glyphTable ops metrics i font))[p]? = some c) := by
  have key : ∀ entry ∈ indexEntries (glyphIndex font), ∀ d : Nat,
      (toUInt32 entry.1 == d) = true →
      ∃ (p : Nat) (glyph : GlyphGeometry D), (includedGlyphs font.glyphs)[p]? = some glyph ∧
        entry.2 = (p : Int) ∧ glyph.codepoint = d ∧ glyph ∈ font.glyphs ∧
        glyph.codepoint ≠ 0 := by
    intro entry hmem d hd
    obtain ⟨p, glyph, hget, rfl⟩ := (mem_indexEntries_glyphIndex font hlen entry).1 hmem
    have hin : glyph ∈ includedGlyphs font.glyphs := List.getElem?_mem hget
    have hg := (mem_includedGlyphs glyph font.glyphs).1 hin
    refine ⟨p, glyph, hget, rfl, ?_, hg.1, hg.2⟩
    have := toUInt32_wrapInt32 glyph.codepoint (hcp glyph hg.1)
    simpa [this] using hd
  have miss : ∀ d : Nat, (¬ ∃ glyph ∈ font.glyphs, glyph.codepoint ≠ 0 ∧ glyph.codepoint = d) →
      emittedGlyphLookup (indexEntries (glyphIndex font)) d = none := by
    intro d hno
    have hnone : (indexEntries (glyphIndex font)).find? (fun entry => toUInt32 entry.1 == d)
        = none := by
      rw [List.find?_eq_none]
      intro entry hmem hd
      obtain ⟨p, glyph, _, _, hcd, hgm, hnz⟩ := key entry hmem d hd
      exact hno ⟨glyph, hgm, hnz, hcd⟩
    simp [emittedGlyphLookup, hnone]
  refine ⟨?_, miss c, miss 0 ?_, ?_⟩
  rotate_left 2
  · intro entry hmem hkey
    obtain ⟨p, found, hget, hval, hcd, _, _⟩ := key entry hmem c (by simp [hkey])
    refine ⟨p, hval, ?_⟩
    rw [tableCodepoints_glyphTable, List.getElem?_map, hget]
    simp [hcd]
  · rintro ⟨glyph, hgm, hnz, rfl⟩
    have hin : glyph ∈ includedGlyphs font.glyphs :=
      (mem_includedGlyphs glyph font.glyphs).2 ⟨hgm, hnz⟩
    obtain ⟨q, hq⟩ := List.getElem?_of_mem hin
    have hmem : (wrapInt32 glyph.codepoint, (q : Int)) ∈ indexEntries (glyphIndex font) :=
      (mem_indexEntries_glyphIndex font hlen _).2 ⟨q, glyph, hq, rfl⟩
    have hpred : (toUInt32 (wrapInt32 glyph.codepoint, (q : Int)).1 == glyph.codepoint) = true := by
      simp [toUInt32_wrapInt32 glyph.codepoint (hcp glyph hgm)]
    cases hfind : (indexEntries (glyphIndex font)).find?
        (fun entry => toUInt32 entry.1 == glyph.codepoint) with
    | none =>
      rw [List.find?_eq_none] at hfind
      exact absurd hpred (hfind _ hmem)
    | some entry =>
      have hp := List.find?_some hfind
      have hm := List.mem_of_find?_eq_some hfind
      obtain ⟨p, found, hget, hval, hcd, _, _⟩ := key entry hm glyph.codepoint hp
      have hlt : p < (includedGlyphs font.glyphs).length := by
        by_contra hge
        rw [List.getElem?_eq_none (by omega)] at hget
        exact Option.noConfusion hget
      refine ⟨p, ?_, ?_, ?_⟩
      · simp [emittedGlyphLookup, hfind, hval]
      · rw [tableCodepoints_glyphTable, List.length_map]; exact hlt
      · rw [tableCodepoints_glyphTable, List.getElem?_map, hget]
        simp [hcd]
  · rintro ⟨glyph, _, hnz, hz⟩
    exact hnz hz

/-- C5 at the end-to-end scenario: the font with the codepoints 65 and 0 has a
table of one entry, the lookup of 65 yields its position 0 and the lookup of 66
yields nothing. -/
theorem lookup_hits_exactly_included_codepoints_witness :
    (∀ glyph ∈ scenarioFont.glyphs, glyph.codepoint < 4294967296) ∧
    (includedGlyphs scenarioFont.glyphs).length ≤ 2147483647 ∧
    (tableCodepoints (glyphTable binary64 (sampleMetrics 13 15) 0 scenarioFont)).length = 1 ∧
    emittedGlyphLookup (indexEntries (glyphIndex scenarioFont)) 65 = some 0 ∧
    emittedGlyphLookup (indexEntries (glyphIndex scenarioFont)) 66 = none := by
  have hcp : ∀ glyph ∈ scenarioFont.glyphs, glyph.codepoint < 4294967296 := by
    intro glyph hg
    simp only [scenarioFont, sampleFont, List.mem_cons, List.mem_singleton, List.mem_nil_iff,
      or_false] at hg
    rcases hg with rfl | rfl <;> decide
  have hlen : (includedGlyphs scenarioFont.glyphs).length ≤ 2147483647 := by
    simp [includedGlyphs, scenarioFont, sampleFont, sampleGlyph, sampleLigature]
  have t := lookup_hits_exactly_included_codepoints binary64 (sampleMetrics 13 15) 0
    scenarioFont 66 hcp hlen
  refine ⟨hcp, hlen, ?_, ?_, ?_⟩
  · rw [tableCodepoints_glyphTable]
    simp [includedGlyphs, scenarioFont, sampleFont, sampleGlyph, sampleLigature]
  · simp [emittedGlyphLookup, indexEntries, glyphIndex, glyphIndexLoop, scenarioFont,
      sampleFont, sampleGlyph, sampleLigature, toUInt32, wrapInt32]
  · apply t.2.1
    simp [scenarioFont, sampleFont, sampleGlyph, sampleLigature]

/-- The text of a key at a codepoint of 2^31: the table entry of the glyph is
written with the codepoint 2147483648 (`%u`) and its index entry with
-2147483648 (`%d` of `int(codepoint)`), which the key type `uint32_t` of the
map reads as 2147483648 again. -/
theorem index_key_differs_from_table_codepoint :
    tableCodepoints (glyphTable binary64 (sampleMetrics 13 15) 0
      (sampleFont [sampleGlyph 2147483648 ⟨0, 0, 12, 14⟩])) = [2147483648] ∧
    indexEntries (glyphIndex (sampleFont [sampleGlyph 2147483648 ⟨0, 0, 12, 14⟩])) =
      [(-2147483648, 0)] := by
  constructor
  · rw [tableCodepoints_glyphTable]
    simp [includedGlyphs, sampleFont, sampleGlyph]
  · simp [indexEntries, glyphIndex, glyphIndexLoop, sampleFont, sampleGlyph, wrapInt32]

/-- Below 2^31 the index of a font agrees with its table: the k-th index entry
is the codepoint of the k-th table entry paired with k. -/
theorem index_agrees_with_table_of_small_codepoints (ops : DoubleOps D)
    (metrics : CppAtlasMetrics D) (i : Int) (font : FontGeometry D)
    (hcp : ∀ glyph ∈ font.glyphs, glyph.codepoint < 2147483648)
    (hlen : (includedGlyphs font.glyphs).length ≤ 2147483647) :
    indexEntries (glyphIndex font) =
      (List.enumFrom 0 (tableCodepoints (glyphTable ops metrics i font))).map
        (fun p => ((p.2 : Int), (p.1 : Int))) := by
  rw [indexEntries_glyphIndex font hlen, tableCodepoints_glyphTable, List.enumFrom_map,
    List.map_map]
  apply List.map_congr_left
  rintro ⟨p, glyph⟩ hmem
  have hin : glyph ∈ includedGlyphs font.glyphs := by
    have := List.mk_mem_enumFrom_iff_le_and_getElem?_sub.1 hmem
    exact List.getElem?_mem this.2
  have hlt := hcp glyph ((mem_includedGlyphs glyph font.glyphs).1 hin).1
  simp only [Function.comp, Prod.map, id]
  rw [wrapInt32_of_small] <;> omega

/-! ## The bounds of a glyph -/

theorem glyphEntry_infix_glyphTableLoop (ops : DoubleOps D) (metrics : CppAtlasMetrics D)
    (glyph : GlyphGeometry D) (hc : glyph.codepoint ≠ 0) (glyphs : List (GlyphGeometry D))
    (hg : glyph ∈ glyphs) (firstGlyph : Bool) :
    ∃ first, glyphEntry ops metrics first glyph <:+:
      glyphTableLoop ops metrics firstGlyph glyphs := by
  induction glyphs generalizing firstGlyph with
  | nil => exact absurd hg (List.not_mem_nil _)
  | cons head rest ih =>
    rcases List.mem_cons.1 hg with rfl | hrest
    · refine ⟨firstGlyph, ?_⟩
      simp only [glyphTableLoop, hc, ne_eq, not_false_eq_true, if_true]
      exact (List.prefix_append _ _).isInfix
    · by_cases hh : head.codepoint = 0
      · obtain ⟨first, hin⟩ := ih hrest firstGlyph
        refine ⟨first, ?_⟩
        simpa only [glyphTableLoop, hh, ne_eq, not_true_eq_false, if_false] using hin
      · obtain ⟨first, hin⟩ := ih hrest false
        refine ⟨first, ?_⟩
        simp only [glyphTableLoop, hh, ne_eq, not_false_eq_true, if_true]
        exact hin.trans (List.suffix_append _ _).isInfix

/-- In a successful export the table entry of every glyph with a codepoint
other than zero, of every font below `fontCount`, is part of the text written. -/
theorem glyphEntry_infix_exportCPP (ops : DoubleOps D)
    (fopenOk : String → Bool) (fonts : Nat → FontGeometry D) (fontCount : Int)
    (imageType : ImageType) (metrics : CppAtlasMetrics D) (filename : String)
    (kerning : Bool)
    (h : (exportCPP ops fopenOk fonts fontCount imageType metrics filename kerning).1 = true)
    (i : Nat) (hi : (i : Int) < fontCount) (glyph : GlyphGeometry D)
    (hg : glyph ∈ (fonts i).glyphs) (hc : glyph.codepoint ≠ 0) :
    ∃ first, (glyphEntry ops metrics first glyph).map FileAct.write <:+:
      (exportCPP ops fopenOk fonts fontCount imageType metrics filename kerning).2 := by
  obtain ⟨_, _, heq⟩ := exportCPP_eq_of_success ops fopenOk fonts fontCount imageType metrics
    filename kerning h
  obtain ⟨first, hin⟩ := glyphEntry_infix_glyphTableLoop ops metrics glyph hc (fonts i).glyphs
    hg true
  refine ⟨first, ?_⟩
  rw [heq]
  have h1 : glyphEntry ops metrics first glyph <:+: fontSection ops metrics i (fonts i) := by
    unfold fontSection glyphTable
    exact (List.infix_cons hin).trans (List.infix_append _ _ _)
  have hmem : i ∈ List.range fontCount.toNat := by
    rw [List.mem_range]; omega
  have h2 : fontSection ops metrics i (fonts i) <:+:
      (List.range fontCount.toNat).flatMap (fun i => fontSection ops metrics i (fonts i)) :=
    List.infix_of_mem_flatten (List.mem_map_of_mem _ hmem)
  have h3 : glyphEntry ops metrics first glyph <:+:
      exportText ops fonts fontCount imageType metrics := by
    unfold exportText
    exact (h1.trans h2).trans ((List.infix_append _ _ _))
  exact (h3.map FileAct.write).trans (List.infix_append _ _ _)

theorem planeBoundsFields_append (xs ys : List (Out D)) :
    planeBoundsFields (xs ++ ys) = planeBoundsFields xs ++ planeBoundsFields ys := by
  induction xs with
  | nil => rfl
  | cons x xs ih => cases x <;> simp [planeBoundsFields, ih]

theorem atlasBoundsFields_append (xs ys : List (Out D)) :
    atlasBoundsFields (xs ++ ys) = atlasBoundsFields xs ++ atlasBoundsFields ys := by
  induction xs with
  | nil => rfl
  | cons x xs ih => cases x <;> simp [atlasBoundsFields, ih]

theorem planeBoundsFields_planeBoundsField (ops : DoubleOps D) (metrics : CppAtlasMetrics D)
    (glyph : GlyphGeometry D) :
    planeBoundsFields (planeBoundsField ops metrics glyph) =
      planeBoundsField ops metrics glyph := by
  simp only [planeBoundsField]
  split_ifs <;> cases metrics.yDirection <;> rfl

theorem planeBoundsFields_atlasBoundsField (ops : DoubleOps D) (metrics : CppAtlasMetrics D)
    (glyph : GlyphGeometry D) :
    planeBoundsFields (atlasBoundsField ops metrics glyph) = [] := by
  simp only [atlasBoundsField]
  split_ifs <;> cases metrics.yDirection <;> rfl

theorem atlasBoundsFields_atlasBoundsField (ops : DoubleOps D) (metrics : CppAtlasMetrics D)
    (glyph : GlyphGeometry D) :
    atlasBoundsFields (atlasBoundsField ops metrics glyph) =
      atlasBoundsField ops metrics glyph := by
  simp only [atlasBoundsField]
  split_ifs <;> cases metrics.yDirection <;> rfl

theorem atlasBoundsFields_planeBoundsField (ops : DoubleOps D) (metrics : CppAtlasMetrics D)
    (glyph : GlyphGeometry D) :
    atlasBoundsFields (planeBoundsField ops metrics glyph) = [] := by
  simp only [planeBoundsField]
  split_ifs <;> cases metrics.yDirection <;> rfl

/-- The plane-bounds fields of a table entry are those its line 146 writes. -/
theorem planeBoundsFields_glyphEntry (ops : DoubleOps D) (metrics : CppAtlasMetrics D)
    (firstGlyph : Bool) (glyph : GlyphGeometry D) :
    planeBoundsFields (glyphEntry ops metrics firstGlyph glyph) =
      planeBoundsField ops metrics glyph := by
  simp [glyphEntry, planeBoundsFields_append, planeBoundsFields_planeBoundsField,
    planeBoundsFields_atlasBoundsField, planeBoundsFields]

/-- The atlas-bounds fields of a table entry are those its line 157 writes. -/
theorem atlasBoundsFields_glyphEntry (ops : DoubleOps D) (metrics : CppAtlasMetrics D)
    (firstGlyph : Bool) (glyph : GlyphGeometry D) :
    atlasBoundsFields (glyphEntry ops metrics firstGlyph glyph) =
      atlasBoundsField ops metrics glyph := by
  simp [glyphEntry, atlasBoundsFields_append, atlasBoundsFields_planeBoundsField,
    atlasBoundsFields_atlasBoundsField, atlasBoundsFields]

theorem anyNonzero_eq_true_iff (ops : DoubleOps D) (q : Bounds D) :
    anyNonzero ops q = true ↔
      (ops.truthy q.l = true ∨ ops.truthy q.b = true ∨ ops.truthy q.r = true ∨
        ops.truthy q.t = true) := by
  simp [anyNonzero, or_assoc]

/-- C6: in a successful export, every glyph with a codepoint other than zero
(of a font below `fontCount`) has its entry in the text written, and that
entry has the one plane-bounds field `left, bottom, right, top` with the four
values of the glyph unchanged if at least one of the four is not zero
(`truthy`), and no plane-bounds field if all four are zero. -/
theorem plane_bounds_emitted_iff_nonzero (ops : DoubleOps D)
    (fopenOk : String → Bool) (fonts : Nat → FontGeometry D) (fontCount : Int)
    (imageType : ImageType) (metrics : CppAtlasMetrics D) (filename : String)
    (kerning : Bool)
    (h : (exportCPP ops fopenOk fonts fontCount imageType metrics filename kerning).1 = true)
    (i : Nat) (hi : (i : Int) < fontCount) (glyph : GlyphGeometry D)
    (hg : glyph ∈ (fonts i).glyphs) (hc : glyph.codepoint ≠ 0) :
    ∃ first,
      (glyphEntry ops metrics first glyph).map FileAct.write <:+:
        (exportCPP ops fopenOk fonts fontCount imageType metrics filename kerning).2 ∧
      (planeBoundsFields (glyphEntry ops metrics first glyph) =
          [Out.planeBoundsBottomUp glyph.planeBounds.l glyph.planeBounds.b
            glyph.planeBounds.r glyph.planeBounds.t] ↔
        (ops.truthy glyph.planeBounds.l = true ∨ ops.truthy glyph.planeBounds.b = true ∨
          ops.truthy glyph.planeBounds.r = true ∨ ops.truthy glyph.planeBounds.t = true)) ∧
      (planeBoundsFields (glyphEntry ops metrics first glyph) = [] ↔
        (ops.truthy glyph.planeBounds.l = false ∧ ops.truthy glyph.planeBounds.b = false ∧
          ops.truthy glyph.planeBounds.r = false ∧ ops.truthy glyph.planeBounds.t = false)) := by
  obtain ⟨hy, _, _⟩ := exportCPP_eq_of_success ops fopenOk fonts fontCount imageType metrics
    filename kerning h
  obtain ⟨first, hin⟩ := glyphEntry_infix_exportCPP ops fopenOk fonts fontCount imageType
    metrics filename kerning h i hi glyph hg hc
  refine ⟨first, hin, ?_, ?_⟩
  · rw [planeBoundsFields_glyphEntry, ← anyNonzero_eq_true_iff]
    simp only [planeBoundsField, hy]
    split_ifs with hnz <;> simp [hnz]
  · rw [planeBoundsFields_glyphEntry]
    have hiff := anyNonzero_eq_true_iff ops glyph.planeBounds
    simp only [planeBoundsField, hy]
    split_ifs with hnz
    · have := hiff.1 hnz
      simp only [List.cons_ne_nil, false_iff, not_and, Bool.not_eq_false]
      intro h1 h2 h3
      rcases this with h | h | h | h
      · rw [h1] at h; exact absurd h (by decide)
      · rw [h2] at h; exact absurd h (by decide)
      · rw [h3] at h; exact absurd h (by decide)
      · exact h
    · simp only [true_iff]
      have hno : ¬ (ops.truthy glyph.planeBounds.l = true ∨ ops.truthy glyph.planeBounds.b = true ∨
          ops.truthy glyph.planeBounds.r = true ∨ ops.truthy glyph.planeBounds.t = true) :=
        fun hx => hnz (hiff.2 hx)
      simpa [not_or] using hno

/-- C6 at the end-to-end scenario: the glyph 65 with plane box (0, 0, 1/2, 3/4)
has an entry with that plane-bounds field. -/
theorem plane_bounds_emitted_iff_nonzero_witness :
    (exportCPP binary64 allWritable (fun _ => scenarioFont) 1 ImageType.MSDF
      (sampleMetrics 13 15) "atlas.cpp" false).1 = true ∧
    sampleGlyph 65 ⟨0, 0, 12, 14⟩ ∈ scenarioFont.glyphs ∧
    ∃ first,
      (glyphEntry binary64 (sampleMetrics 13 15) first (sampleGlyph 65 ⟨0, 0, 12, 14⟩)).map
          FileAct.write <:+:
        (exportCPP binary64 allWritable (fun _ => scenarioFont) 1 ImageType.MSDF
          (sampleMetrics 13 15) "atlas.cpp" false).2 ∧
      planeBoundsFields
          (glyphEntry binary64 (sampleMetrics 13 15) first (sampleGlyph 65 ⟨0, 0, 12, 14⟩)) =
        [Out.planeBoundsBottomUp 0 0 (1 / 2) (3 / 4)] := by
  have hs : (exportCPP binary64 allWritable (fun _ => scenarioFont) 1 ImageType.MSDF
      (sampleMetrics 13 15) "atlas.cpp" false).1 = true := rfl
  have hg : sampleGlyph 65 ⟨0, 0, 12, 14⟩ ∈ (scenarioFont).glyphs := by
    simp [scenarioFont, sampleFont]
  obtain ⟨first, hin, hiff, _⟩ := plane_bounds_emitted_iff_nonzero binary64 allWritable
    (fun _ => scenarioFont) 1 ImageType.MSDF (sampleMetrics 13 15) "atlas.cpp" false hs 0
    (by decide) (sampleGlyph 65 ⟨0, 0, 12, 14⟩) hg (by decide)
  refine ⟨hs, hg, first, hin, ?_⟩
  exact hiff.2 (Or.inr (Or.inr (Or.inl (by simp [binary64, sampleGlyph]))))

/-- C7: in a successful export, every glyph with a codepoint other than zero
(of a font below `fontCount`) has its entry in the text written, and that
entry has the one atlas-bounds field `left, bottom, right, top`, with the
values divided by `width - 1` and `height - 1`, if at least one of the four
values of the glyph as given, in pixels, is not zero (`truthy`), and no
atlas-bounds field if all four are zero. -/
theorem atlas_bounds_emitted_iff_nonzero (ops : DoubleOps D)
    (fopenOk : String → Bool) (fonts : Nat → FontGeometry D) (fontCount : Int)
    (imageType : ImageType) (metrics : CppAtlasMetrics D) (filename : String)
    (kerning : Bool)
    (h : (exportCPP ops fopenOk fonts fontCount imageType metrics filename kerning).1 = true)
    (i : Nat) (hi : (i : Int) < fontCount) (glyph : GlyphGeometry D)
    (hg : glyph ∈ (fonts i).glyphs) (hc : glyph.codepoint ≠ 0) :
    ∃ first,
      (glyphEntry ops metrics first glyph).map FileAct.write <:+:
        (exportCPP ops fopenOk fonts fontCount imageType metrics filename kerning).2 ∧
      (atlasBoundsFields (glyphEntry ops metrics first glyph) =
          [Out.atlasBoundsBottomUp
            (ops.div glyph.atlasBounds.l (ops.ofInt (metrics.width - 1)))
            (ops.div glyph.atlasBounds.b (ops.ofInt (metrics.height - 1)))
            (ops.div glyph.atlasBounds.r (ops.ofInt (metrics.width - 1)))
            (ops.div glyph.atlasBounds.t (ops.ofInt (metrics.height - 1)))] ↔
        (ops.truthy glyph.atlasBounds.l = true ∨ ops.truthy glyph.atlasBounds.b = true ∨
          ops.truthy glyph.atlasBounds.r = true ∨ ops.truthy glyph.atlasBounds.t = true)) ∧
      (atlasBoundsFields (glyphEntry ops metrics first glyph) = [] ↔
        (ops.truthy glyph.atlasBounds.l = false ∧ ops.truthy glyph.atlasBounds.b = false ∧
          ops.truthy glyph.atlasBounds.r = false ∧ ops.truthy glyph.atlasBounds.t = false)) := by
  obtain ⟨hy, _, _⟩ := exportCPP_eq_of_success ops fopenOk fonts fontCount imageType metrics
    filename kerning h
  obtain ⟨first, hin⟩ := glyphEntry_infix_exportCPP ops fopenOk fonts fontCount imageType
    metrics filename kerning h i hi glyph hg hc
  refine ⟨first, hin, ?_, ?_⟩
  · rw [atlasBoundsFields_glyphEntry, ← anyNonzero_eq_true_iff]
    simp only [atlasBoundsField, hy]
    split_ifs with hnz <;> simp [hnz]
  · rw [atlasBoundsFields_glyphEntry]
    have hiff := anyNonzero_eq_true_iff ops glyph.atlasBounds
    simp only [atlasBoundsField, hy]
    split_ifs with hnz
    · have := hiff.1 hnz
      simp only [List.cons_ne_nil, false_iff, not_and, Bool.not_eq_false]
      intro h1 h2 h3
      rcases this with h | h | h | h
      · rw [h1] at h; exact absurd h (by decide)
      · rw [h2] at h; exact absurd h (by decide)
      · rw [h3] at h; exact absurd h (by decide)
      · exact h
    · simp only [true_iff]
      have hno : ¬ (ops.truthy glyph.atlasBounds.l = true ∨ ops.truthy glyph.atlasBounds.b = true ∨
          ops.truthy glyph.atlasBounds.r = true ∨ ops.truthy glyph.atlasBounds.t = true) :=
        fun hx => hnz (hiff.2 hx)
      simpa [not_or] using hno

/-- C7 at a font whose glyph 32 has the atlas box (0, 0, 0, 0): its entry is
written and has no atlas-bounds field. -/
theorem atlas_bounds_emitted_iff_nonzero_witness :
    (exportCPP binary64 allWritable (fun _ => sampleFont [sampleGlyph 32 ⟨0, 0, 0, 0⟩]) 1
      ImageType.MSDF (sampleMetrics 13 15) "atlas.cpp" false).1 = true ∧
    ∃ first,
      (glyphEntry binary64 (sampleMetrics 13 15) first (sampleGlyph 32 ⟨0, 0, 0, 0⟩)).map
          FileAct.write <:+:
        (exportCPP binary64 allWritable (fun _ => sampleFont [sampleGlyph 32 ⟨0, 0, 0, 0⟩]) 1
          ImageType.MSDF (sampleMetrics 13 15) "atlas.cpp" false).2 ∧
      atlasBoundsFields
          (glyphEntry binary64 (sampleMetrics 13 15) first (sampleGlyph 32 ⟨0, 0, 0, 0⟩)) = [] := by
  have hs : (exportCPP binary64 allWritable (fun _ => sampleFont [sampleGlyph 32 ⟨0, 0, 0, 0⟩]) 1
      ImageType.MSDF (sampleMetrics 13 15) "atlas.cpp" false).1 = true := rfl
  obtain ⟨first, hin, _, hnil⟩ := atlas_bounds_emitted_iff_nonzero binary64 allWritable
    (fun _ => sampleFont [sampleGlyph 32 ⟨0, 0, 0, 0⟩]) 1 ImageType.MSDF (sampleMetrics 13 15)
    "atlas.cpp" false hs 0 (by decide) (sampleGlyph 32 ⟨0, 0, 0, 0⟩)
    (by simp [sampleFont]) (by decide)
  refine ⟨hs, first, hin, ?_⟩
  exact hnil.2 (by simp [binary64, sampleGlyph])

/-! ## Normalisation of the atlas bounds -/

theorem rne_zero : rne 0 = 0 := by
  simp [rne]

theorem floorLog2_one : floorLog2 1 = 0 := by
  have h : Nat.log2 1 = 0 := by simp [Nat.log2]
  simp [floorLog2, h]

theorem roundHalfEven_intCast (n : Int) : roundHalfEven (n : ℚ) = n := by
  simp [roundHalfEven]

theorem rne_one : rne 1 = 1 := by
  have hq : quantum 1 = -52 := by simp [quantum, floorLog2_one]
  have h : (1 : ℚ) / (2 : ℚ) ^ (-52 : Int) = ((4503599627370496 : Int) : ℚ) := by norm_num
  rw [rne, if_neg one_ne_zero, hq, h, roundHalfEven_intCast]
  norm_num

theorem floorLog2_third : floorLog2 (1 / 3) = -2 := by
  have h1 : Nat.log2 1 = 0 := by simp [Nat.log2]
  have h3 : Nat.log2 3 = 1 := by simp [Nat.log2]
  have hn : ((1 : ℚ) / 3).num = 1 := by norm_num
  have hd : ((1 : ℚ) / 3).den = 3 := by norm_num
  rw [floorLog2, hn, hd]
  norm_num [h1, h3, abs_of_pos]

/-- The double nearest to one third is 6004799503160661 / 2^54. -/
theorem rne_third : rne (1 / 3) = 6004799503160661 / 18014398509481984 := by
  have hq : quantum (1 / 3) = -54 := by rw [quantum, floorLog2_third]; norm_num
  have hfl : ⌊(1 : ℚ) / 3 / (2 : ℚ) ^ (-54 : Int)⌋ = 6004799503160661 := by
    rw [Int.floor_eq_iff]; norm_num
  have hr : roundHalfEven ((1 : ℚ) / 3 / (2 : ℚ) ^ (-54 : Int)) = 6004799503160661 := by
    simp only [roundHalfEven, hfl]; norm_num
  rw [rne, if_neg (by norm_num), hq, hr]
  norm_num

/-- C8 as stated fails: in an atlas of width 4 and height 2 the glyph with the
atlas box (1, 0, 0, 0) gets the left bound 6004799503160661 / 2^54, the double
nearest to 1/3, and not the rational 1/(4 - 1). -/
theorem atlas_bounds_not_exact_quotients :
    atlasBoundsFields (glyphEntry binary64 (sampleMetrics 4 2) true
        (sampleGlyph 65 ⟨1, 0, 0, 0⟩)) =
      [Out.atlasBoundsBottomUp (6004799503160661 / 18014398509481984) 0 0 0] ∧
    atlasBoundsFields (glyphEntry binary64 (sampleMetrics 4 2) true
        (sampleGlyph 65 ⟨1, 0, 0, 0⟩)) ≠
      [Out.atlasBoundsBottomUp (1 / (4 - 1)) (0 / (2 - 1)) (0 / (4 - 1)) (0 / (2 - 1))] := by
  have hval : atlasBoundsFields (glyphEntry binary64 (sampleMetrics 4 2) true
        (sampleGlyph 65 ⟨1, 0, 0, 0⟩)) =
      [Out.atlasBoundsBottomUp (6004799503160661 / 18014398509481984) 0 0 0] := by
    rw [atlasBoundsFields_glyphEntry]
    have h3 : (((4 : Int) - 1 : Int) : ℚ) = 3 := by norm_num
    simp only [atlasBoundsField, anyNonzero, sampleGlyph, sampleMetrics, binary64, h3,
      zero_div, rne_zero, rne_third]
    simp
  refine ⟨hval, ?_⟩
  rw [hval]
  intro heq
  have h := (Out.atlasBoundsBottomUp.injEq _ _ _ _ _ _ _ _).mp (List.head_eq_of_cons_eq heq)
  norm_num at h

/-- C8 as amended: under BOTTOM_UP with width and height of at least 2, the entry
of a glyph whose atlas box is not all zero has the one atlas-bounds field whose
values are the quotients of left, bottom, right, top by width - 1, height - 1,
width - 1, height - 1, each rounded to the nearest double; the box
(0, 0, width - 1, height - 1) gives exactly (0, 0, 1, 1). -/
theorem atlas_bounds_are_rounded_quotients (metrics : CppAtlasMetrics ℚ)
    (firstGlyph : Bool) (glyph : GlyphGeometry ℚ)
    (hy : metrics.yDirection = YDirection.BOTTOM_UP)
    (hw : 2 ≤ metrics.width) (hh : 2 ≤ metrics.height)
    (hc : glyph.codepoint ≠ 0)
    (hnz : ¬ (glyph.atlasBounds.l = 0 ∧ glyph.atlasBounds.b = 0 ∧ glyph.atlasBounds.r = 0 ∧
      glyph.atlasBounds.t = 0)) :
    atlasBoundsFields (glyphEntry binary64 metrics firstGlyph glyph) =
      [Out.atlasBoundsBottomUp
        (rne (glyph.atlasBounds.l / ((metrics.width : ℚ) - 1)))
        (rne (glyph.atlasBounds.b / ((metrics.height : ℚ) - 1)))
        (rne (glyph.atlasBounds.r / ((metrics.width : ℚ) - 1)))
        (rne (glyph.atlasBounds.t / ((metrics.height : ℚ) - 1)))] ∧
    (glyph.atlasBounds.l = 0 → glyph.atlasBounds.b = 0 →
      glyph.atlasBounds.r = (metrics.width : ℚ) - 1 →
      glyph.atlasBounds.t = (metrics.height : ℚ) - 1 →
      atlasBoundsFields (glyphEntry binary64 metrics firstGlyph glyph) =
        [Out.atlasBoundsBottomUp 0 0 1 1]) := by
  have hany : anyNonzero binary64 glyph.atlasBounds = true := by
    by_contra hno
    apply hnz
    simpa [anyNonzero, binary64, and_assoc] using hno
  have hval : atlasBoundsFields (glyphEntry binary64 metrics firstGlyph glyph) =
      [Out.atlasBoundsBottomUp
        (rne (glyph.atlasBounds.l / ((metrics.width : ℚ) - 1)))
        (rne (glyph.atlasBounds.b / ((metrics.height : ℚ) - 1)))
        (rne (glyph.atlasBounds.r / ((metrics.width : ℚ) - 1)))
        (rne (glyph.atlasBounds.t / ((metrics.height : ℚ) - 1)))] := by
    rw [atlasBoundsFields_glyphEntry]
    simp only [atlasBoundsField, hany, hy, if_true]
    simp [binary64]
  refine ⟨hval, ?_⟩
  intro hl hb hr ht
  have hw0 : (metrics.width : ℚ) - 1 ≠ 0 := by
    have : (2 : ℚ) ≤ (metrics.width : ℚ) := by exact_mod_cast hw
    linarith
  have hh0 : (metrics.height : ℚ) - 1 ≠ 0 := by
    have : (2 : ℚ) ≤ (metrics.height : ℚ) := by exact_mod_cast hh
    linarith
  rw [hval, hl, hb, hr, ht, zero_div, zero_div, div_self hw0, div_self hh0, rne_zero, rne_one]

/-- C8 at the two atlases of the specification: width 13, height 15 with the box
(0, 0, 12, 14), and width 101, height 51 with the box (0, 0, 100, 50), both
give the atlas bounds (0, 0, 1, 1). -/
theorem atlas_bounds_are_rounded_quotients_witness :
    atlasBoundsFields (glyphEntry binary64 (sampleMetrics 13 15) true
      (sampleGlyph 65 ⟨0, 0, 12, 14⟩)) = [Out.atlasBoundsBottomUp 0 0 1 1] ∧
    atlasBoundsFields (glyphEntry binary64 (sampleMetrics 101 51) true
      (sampleGlyph 65 ⟨0, 0, 100, 50⟩)) = [Out.atlasBoundsBottomUp 0 0 1 1] :=
  ⟨(atlas_bounds_are_rounded_quotients (sampleMetrics 13 15) true
      (sampleGlyph 65 ⟨0, 0, 12, 14⟩) rfl (by decide) (by decide) (by decide)
      (by simp [sampleGlyph])).2 rfl rfl (by norm_num [sampleGlyph, sampleMetrics])
      (by norm_num [sampleGlyph, sampleMetrics]),
   (atlas_bounds_are_rounded_quotients (sampleMetrics 101 51) true
      (sampleGlyph 65 ⟨0, 0, 100, 50⟩) rfl (by decide) (by decide) (by decide)
      (by simp [sampleGlyph])).2 rfl rfl (by norm_num [sampleGlyph, sampleMetrics])
      (by norm_num [sampleGlyph, sampleMetrics])⟩

/-! ## escapeCppString -/

/-- One pass of the switch appends the image of the byte and leaves the buffer
`uval` in its shape, whatever its two digits were before. -/
theorem escapeStep_eq (a b : Nat) (outStr : List Nat) (c : Nat) (hc : c ≠ 0) :
    ∃ a1 b1, escapeStep [92, 117, 48, 48, a, b, 0] outStr c =
      ([92, 117, 48, 48, a1, b1, 0], outStr ++ escapeByteSpec c) := by
  unfold escapeStep escapeByteSpec
  by_cases h92 : c = 92
  · exact ⟨a, b, by simp [h92, cstr]⟩
  by_cases h34 : c = 34
  · exact ⟨a, b, by simp [h34, cstr]⟩
  by_cases h10 : c = 10
  · exact ⟨a, b, by simp [h10, cstr]⟩
  by_cases h13 : c = 13
  · exact ⟨a, b, by simp [h13, cstr]⟩
  by_cases h9 : c = 9
  · exact ⟨a, b, by simp [h9, cstr]⟩
  by_cases hm : c ∈ controlCases
  · simp only [h92, h34, h10, h13, h9, hm, if_true, if_false]
    simp only [controlCases, List.mem_cons, List.mem_singleton, List.mem_nil_iff,
      or_false] at hm
    rcases hm with h | h | h | h | h | h | h | h | h | h | h | h | h | h | h | h | h | h | h |
      h | h | h | h | h | h | h | h | h | h
    all_goals first
      | exact absurd h hc
      | (subst h; exact ⟨_, _, rfl⟩)
  · have hge : ¬ (1 ≤ c ∧ c ≤ 31) := by
      simp only [controlCases, List.mem_cons, List.mem_singleton, List.mem_nil_iff,
        or_false, not_or] at hm
      omega
    exact ⟨a, b, by simp [h92, h34, h10, h13, h9, hm, hge]⟩

theorem escapeLoop_eq (str : List Nat) (a b : Nat) (outStr : List Nat) :
    escapeLoop [92, 117, 48, 48, a, b, 0] outStr str =
      outStr ++ (cstr str).flatMap escapeByteSpec := by
  induction str generalizing a b outStr with
  | nil => simp [escapeLoop, cstr]
  | cons c rest ih =>
    by_cases hc : c = 0
    · simp [escapeLoop, cstr, hc]
    · obtain ⟨a1, b1, hstep⟩ := escapeStep_eq a b outStr c hc
      simp only [escapeLoop, cstr, hc, if_false, hstep, ih, List.flatMap_cons,
        List.append_assoc]

theorem cstr_of_null_free (s : List Nat) (hs : ∀ c ∈ s, c ≠ 0) : cstr s = s := by
  induction s with
  | nil => rfl
  | cons c rest ih =>
    have hc : c ≠ 0 := hs c (List.mem_cons_self _ _)
    simp only [cstr, hc, if_false]
    rw [ih (fun d hd => hs d (List.mem_cons_of_mem _ hd))]

theorem cstr_append_of_null_free (s t : List Nat) (hs : ∀ c ∈ s, c ≠ 0) :
    cstr (s ++ t) = s ++ cstr t := by
  induction s with
  | nil => rfl
  | cons c rest ih =>
    have hc : c ≠ 0 := hs c (List.mem_cons_self _ _)
    have ih1 := ih (fun d hd => hs d (List.mem_cons_of_mem _ hd))
    show cstr (c :: (rest ++ t)) = c :: (rest ++ cstr t)
    simp only [cstr, hc, if_false, ih1]

theorem escapeCppString_eq (str : List Nat) :
    escapeCppString str = (cstr str).flatMap escapeByteSpec := by
  simp [escapeCppString, escapeLoop_eq]

/-- C10: for a string `s` without a zero byte, `escapeCppString s` is the
concatenation, in order, of the images of its bytes under the map of the
specification (`escapeByteSpec`), and the escape of `s` followed by `t` is the
escape of `s` followed by the escape of `t`. -/
theorem escapeCppString_is_bytewise (s t : List Nat) (hs : ∀ c ∈ s, c ≠ 0) :
    escapeCppString s = s.flatMap escapeByteSpec ∧
    escapeCppString (s ++ t) = escapeCppString s ++ escapeCppString t := by
  constructor
  · rw [escapeCppString_eq, cstr_of_null_free s hs]
  · rw [escapeCppString_eq, escapeCppString_eq, escapeCppString_eq,
      cstr_append_of_null_free s t hs, cstr_of_null_free s hs, List.flatMap_append]

/-- C10 at the bytes ESC, backslash, `A`, 0x7F, 0xC8 followed by a tab. -/
theorem escapeCppString_is_bytewise_witness :
    (∀ c ∈ [27, 92, 65, 127, 200], c ≠ 0) ∧
    escapeCppString [27, 92, 65, 127, 200] =
      [92, 117, 48, 48, 49, 98, 92, 92, 65, 127, 200] ∧
    escapeCppString ([27, 92, 65, 127, 200] ++ [9]) =
      escapeCppString [27, 92, 65, 127, 200] ++ escapeCppString [9] := by
  have hs : ∀ c ∈ [27, 92, 65, 127, 200], c ≠ 0 := by decide
  have t := escapeCppString_is_bytewise [27, 92, 65, 127, 200] [9] hs
  exact ⟨hs, t.1.trans (by decide), t.2⟩

/-- The unescape undoes the image of one byte in front of any text. -/
theorem unescapeCpp_escapeByteSpec_append (c : Nat) (hc : c ≠ 0) (rest : List Nat) :
    unescapeCpp (escapeByteSpec c ++ rest) = (unescapeCpp rest).map (fun s => c :: s) := by
  unfold unescapeCpp
  by_cases h92 : c = 92
  · subst h92; simp [escapeByteSpec, unescapeFrom]
  by_cases h34 : c = 34
  · subst h34; simp [escapeByteSpec, unescapeFrom]
  by_cases h10 : c = 10
  · subst h10; simp [escapeByteSpec, unescapeFrom]
  by_cases h13 : c = 13
  · subst h13; simp [escapeByteSpec, unescapeFrom]
  by_cases h9 : c = 9
  · subst h9; simp [escapeByteSpec, unescapeFrom]
  by_cases hctl : 1 ≤ c ∧ c ≤ 31
  · obtain ⟨hlo, hhi⟩ := hctl
    interval_cases c
    all_goals first
      | exact absurd rfl h9
      | exact absurd rfl h10
      | exact absurd rfl h13
      | simp [escapeByteSpec, unescapeFrom, hexDigit, hexValue]
  · simp [escapeByteSpec, unescapeFrom, h92, h34, h10, h13, h9, hctl]

theorem unescapeCpp_flatMap_escapeByteSpec (s : List Nat) (hs : ∀ c ∈ s, c ≠ 0) :
    unescapeCpp (s.flatMap escapeByteSpec) = some s := by
  induction s with
  | nil => rfl
  | cons c rest ih =>
    rw [List.flatMap_cons, unescapeCpp_escapeByteSpec_append c (hs c (List.mem_cons_self _ _)),
      ih (fun d hd => hs d (List.mem_cons_of_mem _ hd))]
    rfl

/-- C9: for strings `s` and `t` without a zero byte, the unescape of
`escapeCppString s` is `s`, and `escapeCppString` takes `s` and `t` to the same
text only if they are equal. -/
theorem unescapeCpp_escapeCppString (s t : List Nat) (hs : ∀ c ∈ s, c ≠ 0)
    (ht : ∀ c ∈ t, c ≠ 0) :
    unescapeCpp (escapeCppString s) = some s ∧
    (escapeCppString s = escapeCppString t → s = t) := by
  have round : ∀ u : List Nat, (∀ c ∈ u, c ≠ 0) → unescapeCpp (escapeCppString u) = some u := by
    intro u hu
    rw [escapeCppString_eq, cstr_of_null_free u hu]
    exact unescapeCpp_flatMap_escapeByteSpec u hu
  refine ⟨round s hs, ?_⟩
  intro heq
  have h1 := round s hs
  rw [heq, round t ht] at h1
  exact (Option.some.inj h1).symm

/-- C9 at a string with every kind of byte: backslash, double quote, tab,
newline, carriage return, the control bytes 0x01, 0x1B and 0x1F, `A`, 0x7F
and 0xC8. -/
theorem unescapeCpp_escapeCppString_witness :
    (∀ c ∈ [92, 34, 9, 10, 13, 1, 27, 31, 65, 127, 200], c ≠ 0) ∧
    unescapeCpp (escapeCppString [92, 34, 9, 10, 13, 1, 27, 31, 65, 127, 200]) =
      some [92, 34, 9, 10, 13, 1, 27, 31, 65, 127, 200] ∧
    escapeCppString [92, 34, 9, 10, 13, 1, 27, 31, 65, 127, 200] =
      [92, 92, 92, 34, 92, 116, 92, 110, 92, 114, 92, 117, 48, 48, 48, 49,
       92, 117, 48, 48, 49, 98, 92, 117, 48, 48, 49, 102, 65, 127, 200] := by
  have hs : ∀ c ∈ [92, 34, 9, 10, 13, 1, 27, 31, 65, 127, 200], c ≠ 0 := by decide
  exact ⟨hs, (unescapeCpp_escapeCppString _ _ hs hs).1, by decide⟩

/-- C11: for a byte `c` from 0x01 to 0x1F other than tab, newline and carriage
return, the escape of the one-byte string `c` is the six bytes backslash, `u`,
`0`, `0` and the digits of `c / 16` and of `c % 16` taken from
`0123456789abcdef`. -/
theorem escapeCppString_control_byte (c : Nat) (hlo : 1 ≤ c) (hhi : c ≤ 31)
    (h9 : c ≠ 9) (h10 : c ≠ 10) (h13 : c ≠ 13) :
    escapeCppString [c] =
      [92, 117, 48, 48, hexDigits.getD (c / 16) 0, hexDigits.getD (c % 16) 0] := by
  interval_cases c
  all_goals first
    | exact absurd rfl h9
    | exact absurd rfl h10
    | exact absurd rfl h13
    | decide

/-- C11 at the bytes 0x1B and 0x08: the escapes are `\u001b` and `\u0008`. -/
theorem escapeCppString_control_byte_witness :
    escapeCppString [27] = [92, 117, 48, 48, 49, 98] ∧
    escapeCppString [8] = [92, 117, 48, 48, 48, 56] :=
  ⟨escapeCppString_control_byte 27 (by decide) (by decide) (by decide) (by decide) (by decide),
   escapeCppString_control_byte 8 (by decide) (by decide) (by decide) (by decide) (by decide)⟩

theorem length_escapeByteSpec_pos (c : Nat) : 1 ≤ (escapeByteSpec c).length := by
  unfold escapeByteSpec
  split_ifs <;> simp

theorem length_escapeByteSpec_le (c : Nat) : (escapeByteSpec c).length ≤ 6 := by
  unfold escapeByteSpec
  split_ifs <;> simp

theorem length_flatMap_escapeByteSpec (s : List Nat) :
    s.length ≤ (s.flatMap escapeByteSpec).length ∧
      (s.flatMap escapeByteSpec).length ≤ 6 * s.length := by
  induction s with
  | nil => simp
  | cons c rest ih =>
    have h1 := length_escapeByteSpec_pos c
    have h6 := length_escapeByteSpec_le c
    simp only [List.flatMap_cons, List.length_append, List.length_cons]
    omega

/-- C12 as stated fails: the one-byte strings `A` and backslash have the same
length and escapes of the lengths 1 and 2, and the one-byte string 0x01 is
shorter than `AB` and has the longer escape, of the length 6 against 2. -/
theorem escape_length_not_a_function_of_length :
    ¬ (∀ s t : List Nat, (∀ c ∈ s, c ≠ 0) → (∀ c ∈ t, c ≠ 0) →
        s.length = t.length →
          (escapeCppString s).length = (escapeCppString t).length) ∧
    ¬ (∀ s t : List Nat, (∀ c ∈ s, c ≠ 0) → (∀ c ∈ t, c ≠ 0) →
        s.length ≤ t.length →
          (escapeCppString s).length ≤ (escapeCppString t).length) := by
  constructor
  · intro h
    exact absurd (h [65] [92] (by decide) (by decide) (by decide)) (by decide)
  · intro h
    exact absurd (h [1] [65, 66] (by decide) (by decide) (by decide)) (by decide)

/-- C12 as amended: for a string `s` without a zero byte the length of the
escape is the sum of the lengths of the images of its bytes, at least the
length of `s` and at most six times it, and it does not decrease when `s` is
extended by a string `t`. -/
theorem escape_length_monotone_under_extension (s t : List Nat) (hs : ∀ c ∈ s, c ≠ 0) :
    (escapeCppString s).length = (s.map (fun c => (escapeByteSpec c).length)).sum ∧
    s.length ≤ (escapeCppString s).length ∧
    (escapeCppString s).length ≤ 6 * s.length ∧
    (escapeCppString s).length ≤ (escapeCppString (s ++ t)).length := by
  have hb := length_flatMap_escapeByteSpec s
  rw [escapeCppString_eq, escapeCppString_eq, cstr_of_null_free s hs,
    cstr_append_of_null_free s t hs, List.flatMap_append, List.length_append]
  refine ⟨?_, hb.1, hb.2, Nat.le_add_right _ _⟩
  rw [List.flatMap, List.length_flatten, List.map_map]
  rfl

/-- C12 at the strings of the counterexample: the escape of 0x01 has the length
6, between 1 and 6 times the length of the string, and the escape of 0x01
followed by `AB` is longer. -/
theorem escape_length_monotone_under_extension_witness :
    (∀ c ∈ [1], c ≠ 0) ∧
    (escapeCppString [1]).length = 6 ∧
    (escapeCppString [1]).length ≤ (escapeCppString ([1] ++ [65, 66])).length := by
  have hs : ∀ c ∈ [1], c ≠ 0 := by decide
  have t := escape_length_monotone_under_extension [1] [65, 66] hs
  exact ⟨hs, by decide, t.2.2.2⟩

/-! ## What the text of an export consists of -/

theorem mem_planeBoundsField (ops : DoubleOps D) (metrics : CppAtlasMetrics D)
    (glyph : GlyphGeometry D) (o : Out D) (ho : o ∈ planeBoundsField ops metrics glyph) :
    (metrics.yDirection = YDirection.BOTTOM_UP ∧
      o = Out.planeBoundsBottomUp glyph.planeBounds.l glyph.planeBounds.b glyph.planeBounds.r
        glyph.planeBounds.t) ∨
    (metrics.yDirection = YDirection.TOP_DOWN ∧
      o = Out.planeBoundsTopDown glyph.planeBounds.l (ops.neg glyph.planeBounds.t)
        glyph.planeBounds.r (ops.neg glyph.planeBounds.b)) := by
  simp only [planeBoundsField] at ho
  split_ifs at ho
  · cases hy : metrics.yDirection <;> simp [hy] at ho <;> simp [ho]
  · simp at ho

theorem mem_atlasBoundsField (ops : DoubleOps D) (metrics : CppAtlasMetrics D)
    (glyph : GlyphGeometry D) (o : Out D) (ho : o ∈ atlasBoundsField ops metrics glyph) :
    (metrics.yDirection = YDirection.BOTTOM_UP ∧
      o = Out.atlasBoundsBottomUp
        (ops.div glyph.atlasBounds.l (ops.ofInt (metrics.width - 1)))
        (ops.div glyph.atlasBounds.b (ops.ofInt (metrics.height - 1)))
        (ops.div glyph.atlasBounds.r (ops.ofInt (metrics.width - 1)))
        (ops.div glyph.atlasBounds.t (ops.ofInt (metrics.height - 1)))) ∨
    (metrics.yDirection = YDirection.TOP_DOWN ∧
      o = Out.atlasBoundsTopDown
        (ops.div glyph.atlasBounds.l (ops.ofInt (metrics.width - 1)))
        (ops.div (ops.sub (ops.ofInt metrics.height) glyph.atlasBounds.t)
          (ops.ofInt (metrics.height - 1)))
        (ops.div glyph.atlasBounds.r (ops.ofInt (metrics.width - 1)))
        (ops.div (ops.sub (ops.ofInt metrics.height) glyph.atlasBounds.b)
          (ops.ofInt (metrics.height - 1)))) := by
  simp only [atlasBoundsField] at ho
  split_ifs at ho
  · cases hy : metrics.yDirection <;> simp [hy] at ho <;> simp [ho]
  · simp at ho

theorem mem_glyphEntry (ops : DoubleOps D) (metrics : CppAtlasMetrics D) (firstGlyph : Bool)
    (glyph : GlyphGeometry D) (o : Out D) (ho : o ∈ glyphEntry ops metrics firstGlyph glyph) :
    o = Out.entryOpen firstGlyph ∨ o = Out.codepoint glyph.codepoint ∨
      o = Out.advance glyph.advance ∨ o ∈ planeBoundsField ops metrics glyph ∨
      o ∈ atlasBoundsField ops metrics glyph ∨ o = Out.entryClose := by
  simpa [glyphEntry, or_assoc] using ho

theorem mem_glyphTableLoop (ops : DoubleOps D) (metrics : CppAtlasMetrics D)
    (glyphs : List (GlyphGeometry D)) (firstGlyph : Bool) (o : Out D)
    (ho : o ∈ glyphTableLoop ops metrics firstGlyph glyphs) :
    ∃ first glyph, glyph ∈ glyphs ∧ glyph.codepoint ≠ 0 ∧
      o ∈ glyphEntry ops metrics first glyph := by
  induction glyphs generalizing firstGlyph with
  | nil => simp [glyphTableLoop] at ho
  | cons head rest ih =>
    by_cases hh : head.codepoint = 0
    · simp only [glyphTableLoop, hh, ne_eq, not_true_eq_false, if_false] at ho
      obtain ⟨first, glyph, hg, hc, hm⟩ := ih firstGlyph ho
      exact ⟨first, glyph, List.mem_cons_of_mem _ hg, hc, hm⟩
    · simp only [glyphTableLoop, hh, ne_eq, not_false_eq_true, if_true, List.mem_append] at ho
      rcases ho with ho | ho
      · exact ⟨firstGlyph, head, List.mem_cons_self _ _, hh, ho⟩
      · obtain ⟨first, glyph, hg, hc, hm⟩ := ih false ho
        exact ⟨first, glyph, List.mem_cons_of_mem _ hg, hc, hm⟩

theorem mem_glyphIndexLoop (glyphs : List (GlyphGeometry D)) (i : Int) (firstGlyph : Bool)
    (o : Out D) (ho : o ∈ glyphIndexLoop i firstGlyph glyphs) :
    (∃ first, o = Out.entryOpen first) ∨ (∃ key value, o = Out.pair key value) ∨
      o = Out.entryClose := by
  induction glyphs generalizing i firstGlyph with
  | nil => simp [glyphIndexLoop] at ho
  | cons head rest ih =>
    by_cases hh : head.codepoint = 0
    · simp only [glyphIndexLoop, hh, ne_eq, not_true_eq_false, if_false] at ho
      exact ih i firstGlyph ho
    · simp only [glyphIndexLoop, hh, ne_eq, not_false_eq_true, if_true, List.mem_append,
        List.mem_cons, List.mem_singleton, List.mem_nil_iff, or_false] at ho
      rcases ho with (ho | ho | ho) | ho
      · exact Or.inl ⟨_, ho⟩
      · exact Or.inr (Or.inl ⟨_, _, ho⟩)
      · exact Or.inr (Or.inr ho)
      · exact ih _ false ho

/-- The writes of the glyph table and of the index of a font: none of them is a
write of a metrics record, and a TOP_DOWN field among them needs TOP_DOWN. -/
theorem mem_glyphTable_or_glyphIndex (ops : DoubleOps D) (metrics : CppAtlasMetrics D)
    (i : Int) (font : FontGeometry D) (o : Out D)
    (ho : o ∈ glyphTable ops metrics i font ++ glyphIndex font) :
    isMetricsField o = false ∧
      (isTopDownField o = true → metrics.yDirection = YDirection.TOP_DOWN) := by
  simp only [glyphTable, glyphIndex, List.mem_append, List.mem_cons, List.mem_singleton,
    List.mem_nil_iff, or_false] at ho
  rcases ho with (ho | ho) | ho | ho | ho
  · subst ho; exact ⟨rfl, fun h => Bool.noConfusion h⟩
  · obtain ⟨first, glyph, _, _, hm⟩ := mem_glyphTableLoop ops metrics font.glyphs true o ho
    rcases mem_glyphEntry ops metrics first glyph o hm with h | h | h | h | h | h
    · subst h; exact ⟨rfl, fun h => Bool.noConfusion h⟩
    · subst h; exact ⟨rfl, fun h => Bool.noConfusion h⟩
    · subst h; exact ⟨rfl, fun h => Bool.noConfusion h⟩
    · rcases mem_planeBoundsField ops metrics glyph o h with ⟨_, h⟩ | ⟨hy, h⟩
      · subst h; exact ⟨rfl, fun h => Bool.noConfusion h⟩
      · subst h; exact ⟨rfl, fun _ => hy⟩
    · rcases mem_atlasBoundsField ops metrics glyph o h with ⟨_, h⟩ | ⟨hy, h⟩
      · subst h; exact ⟨rfl, fun h => Bool.noConfusion h⟩
      · subst h; exact ⟨rfl, fun _ => hy⟩
    · subst h; exact ⟨rfl, fun h => Bool.noConfusion h⟩
  · subst ho; exact ⟨rfl, fun h => Bool.noConfusion h⟩
  · rcases mem_glyphIndexLoop font.glyphs 0 true o ho with ⟨_, h⟩ | ⟨_, _, h⟩ | h
    · subst h; exact ⟨rfl, fun h => Bool.noConfusion h⟩
    · subst h; exact ⟨rfl, fun h => Bool.noConfusion h⟩
    · subst h; exact ⟨rfl, fun h => Bool.noConfusion h⟩
  · subst ho; exact ⟨rfl, fun h => Bool.noConfusion h⟩

theorem isTopDownField_of_mem_exportText (ops : DoubleOps D) (fonts : Nat → FontGeometry D)
    (fontCount : Int) (imageType : ImageType) (metrics : CppAtlasMetrics D) (o : Out D)
    (ho : o ∈ exportText ops fonts fontCount imageType metrics)
    (htd : isTopDownField o = true) : metrics.yDirection = YDirection.TOP_DOWN := by
  simp only [exportText, List.mem_append, List.mem_singleton, List.mem_flatMap] at ho
  rcases ho with ((ho | ho) | ⟨i, _, ho⟩) | ho
  · subst ho; exact Bool.noConfusion htd
  · simp only [atlasProperties, List.mem_append, List.mem_cons, List.mem_singleton,
      List.mem_nil_iff, or_false] at ho
    rcases ho with (ho | ho) | ho | ho | ho | ho
    · subst ho; exact Bool.noConfusion htd
    · split_ifs at ho
      · simp only [List.mem_cons, List.mem_singleton, List.mem_nil_iff, or_false] at ho
        rcases ho with ho | ho <;> (subst ho; exact Bool.noConfusion htd)
      · simp at ho
    · subst ho; exact Bool.noConfusion htd
    · subst ho; exact Bool.noConfusion htd
    · subst ho; exact Bool.noConfusion htd
    · subst ho; exact Bool.noConfusion htd
  · simp only [fontSection, List.append_assoc, List.mem_append] at ho
    rcases ho with ho | ho
    · simp only [fontMetricsRecord, List.mem_cons, List.mem_singleton, List.mem_nil_iff,
        or_false] at ho
      rcases ho with ho | ho | ho | ho | ho | ho <;> (subst ho; exact Bool.noConfusion htd)
    · exact (mem_glyphTable_or_glyphIndex ops metrics i (fonts i) o
        (List.mem_append.2 ho)).2 htd
  · subst ho; exact Bool.noConfusion htd

/-- C19: whenever `exportCPP` writes anything, `metrics.yDirection` is BOTTOM_UP,
the sign factor `yFactor` is 1, and what is written is not a field of the
TOP_DOWN case of either bounds switch. -/
theorem top_down_emission_is_dead (ops : DoubleOps D)
    (fopenOk : String → Bool) (fonts : Nat → FontGeometry D) (fontCount : Int)
    (imageType : ImageType) (metrics : CppAtlasMetrics D) (filename : String)
    (kerning : Bool) (o : Out D)
    (ho : FileAct.write o ∈
      (exportCPP ops fopenOk fonts fontCount imageType metrics filename kerning).2) :
    metrics.yDirection = YDirection.BOTTOM_UP ∧ yFactor ops metrics = ops.ofInt 1 ∧
      isTopDownField o = false := by
  unfold exportCPP at ho
  cases hy : metrics.yDirection
  · refine ⟨rfl, by simp [yFactor, hy], ?_⟩
    cases ho2 : fopenOk filename
    · simp [hy, ho2] at ho
    · simp only [hy, ho2, if_false, not_true_eq_false, reduceCtorEq,
        List.mem_append, List.mem_singleton, List.mem_map, FileAct.write.injEq,
        exists_eq_right, or_false, false_or] at ho
      cases htd : isTopDownField o
      · rfl
      · have := isTopDownField_of_mem_exportText ops fonts fontCount imageType metrics o ho htd
        rw [hy] at this
        exact YDirection.noConfusion this
  · simp [hy] at ho

/-- C19 at the end-to-end scenario: the entry of the glyph 65 is opened under
BOTTOM_UP with the sign factor 1. -/
theorem top_down_emission_is_dead_witness :
    FileAct.write (Out.codepoint 65) ∈
      (exportCPP binary64 allWritable (fun _ => scenarioFont) 1 ImageType.MSDF
        (sampleMetrics 13 15) "atlas.cpp" false).2 ∧
    (sampleMetrics 13 15).yDirection = YDirection.BOTTOM_UP ∧
    yFactor binary64 (sampleMetrics 13 15) = 1 := by
  have hm : FileAct.write (Out.codepoint 65) ∈
      (exportCPP binary64 allWritable (fun _ => scenarioFont) 1 ImageType.MSDF
        (sampleMetrics 13 15) "atlas.cpp" false).2 := by
    simp [exportCPP, exportText, sampleMetrics, allWritable, fontSection, glyphTable,
      glyphTableLoop, glyphEntry, scenarioFont, sampleFont, sampleGlyph, sampleLigature]
  have t := top_down_emission_is_dead binary64 allWritable (fun _ => scenarioFont) 1
    ImageType.MSDF (sampleMetrics 13 15) "atlas.cpp" false (Out.codepoint 65) hm
  exact ⟨hm, t.1, by rw [t.2.1]; simp [binary64]⟩

/-- C15: the value returned and everything done to the file system are the
same with `kerning` true and false. -/
theorem exportCPP_ignores_kerning (ops : DoubleOps D)
    (fopenOk : String → Bool) (fonts : Nat → FontGeometry D) (fontCount : Int)
    (imageType : ImageType) (metrics : CppAtlasMetrics D) (filename : String) :
    exportCPP ops fopenOk fonts fontCount imageType metrics filename true =
      exportCPP ops fopenOk fonts fontCount imageType metrics filename false := by
  rfl

/-! ## The atlas properties and the font metrics -/

/-- C13: in a successful export the atlas properties follow the preamble; for
the image types SDF, PSDF, MSDF and MTSDF they are `distanceRange` with
`upper - lower`, `distanceRangeMiddle` with `.5 * (lower + upper)`, which in
double precision is `(lower + upper) / 2`, and then `size`, `width` and
`height`; for HARD_MASK and SOFT_MASK they are `size`, `width` and `height`
alone. -/
theorem atlas_properties_by_image_type (ops : DoubleOps D)
    (fopenOk : String → Bool) (fonts : Nat → FontGeometry D) (fontCount : Int)
    (imageType : ImageType) (metrics : CppAtlasMetrics D) (filename : String)
    (kerning : Bool)
    (h : (exportCPP ops fopenOk fonts fontCount imageType metrics filename kerning).1 = true) :
    (∃ rest, (exportCPP ops fopenOk fonts fontCount imageType metrics filename kerning).2 =
      [FileAct.fopen filename, FileAct.write Out.preamble] ++
        (atlasProperties ops imageType metrics).map FileAct.write ++ rest) ∧
    ((imageType = ImageType.SDF ∨ imageType = ImageType.PSDF ∨ imageType = ImageType.MSDF ∨
        imageType = ImageType.MTSDF) →
      atlasProperties ops imageType metrics =
        [Out.atlasOpen,
         Out.distanceRange (ops.sub metrics.distanceRange.upper metrics.distanceRange.lower),
         Out.distanceRangeMiddle
           (ops.mul ops.half (ops.add metrics.distanceRange.lower metrics.distanceRange.upper)),
         Out.size metrics.size, Out.width metrics.width, Out.height metrics.height,
         Out.recordClose]) ∧
    ((imageType = ImageType.HARD_MASK ∨ imageType = ImageType.SOFT_MASK) →
      atlasProperties ops imageType metrics =
        [Out.atlasOpen, Out.size metrics.size, Out.width metrics.width,
         Out.height metrics.height, Out.recordClose]) ∧
    ((∃ x, Out.distanceRange x ∈ atlasProperties ops imageType metrics) ↔
      (imageType = ImageType.SDF ∨ imageType = ImageType.PSDF ∨ imageType = ImageType.MSDF ∨
        imageType = ImageType.MTSDF)) ∧
    ((∃ x, Out.distanceRangeMiddle x ∈ atlasProperties ops imageType metrics) ↔
      (imageType = ImageType.SDF ∨ imageType = ImageType.PSDF ∨ imageType = ImageType.MSDF ∨
        imageType = ImageType.MTSDF)) ∧
    (∀ lower upper : ℚ, binary64.mul binary64.half (binary64.add lower upper) =
      binary64.div (binary64.add lower upper) (binary64.ofInt 2)) := by
  obtain ⟨_, _, heq⟩ := exportCPP_eq_of_success ops fopenOk fonts fontCount imageType metrics
    filename kerning h
  refine ⟨⟨(((List.range fontCount.toNat).flatMap
      (fun i => fontSection ops metrics i (fonts i)) ++ [Out.fileEnd]).map FileAct.write) ++
      [FileAct.fclose], ?_⟩, ?_, ?_, ?_, ?_, ?_⟩
  · rw [heq]
    simp only [exportText, List.map_append, List.map_cons, List.map_nil, List.append_assoc,
      List.cons_append, List.nil_append]
  · rintro (rfl | rfl | rfl | rfl) <;> rfl
  · rintro (rfl | rfl) <;> rfl
  · cases imageType <;> simp [atlasProperties, isDistanceField]
  · cases imageType <;> simp [atlasProperties, isDistanceField]
  · intro lower upper
    simp only [binary64]
    congr 1
    push_cast
    ring

/-- C13 at the end-to-end scenario with the image types MSDF and SOFT_MASK. -/
theorem atlas_properties_by_image_type_witness :
    (exportCPP binary64 allWritable (fun _ => scenarioFont) 1 ImageType.MSDF
      (sampleMetrics 13 15) "atlas.cpp" false).1 = true ∧
    atlasProperties binary64 ImageType.MSDF (sampleMetrics 13 15) =
      [Out.atlasOpen, Out.distanceRange (binary64.sub 1 (-1)),
       Out.distanceRangeMiddle (binary64.mul binary64.half (binary64.add (-1) 1)),
       Out.size 32, Out.width 13, Out.height 15, Out.recordClose] ∧
    atlasProperties binary64 ImageType.SOFT_MASK (sampleMetrics 13 15) =
      [Out.atlasOpen, Out.size 32, Out.width 13, Out.height 15, Out.recordClose] := by
  have hs : (exportCPP binary64 allWritable (fun _ => scenarioFont) 1 ImageType.MSDF
      (sampleMetrics 13 15) "atlas.cpp" false).1 = true := rfl
  have t := atlas_properties_by_image_type binary64 allWritable (fun _ => scenarioFont) 1
    ImageType.MSDF (sampleMetrics 13 15) "atlas.cpp" false hs
  exact ⟨hs, t.2.1 (Or.inr (Or.inr (Or.inl rfl))), rfl⟩

theorem metricsFields_fontSection (ops : DoubleOps D) (metrics : CppAtlasMetrics D) (i : Nat)
    (font : FontGeometry D) :
    metricsFields (fontSection ops metrics i font) =
      [Out.metricsOpen i, Out.lineHeight font.metrics.lineHeight,
       Out.ascender (ops.mul (yFactor ops metrics) font.metrics.ascenderY),
       Out.descender (ops.mul (yFactor ops metrics) font.metrics.descenderY),
       Out.underlineY (ops.mul (yFactor ops metrics) font.metrics.underlineY)] := by
  have hrest : (glyphTable ops metrics i font ++ glyphIndex font).filter isMetricsField = [] := by
    rw [List.filter_eq_nil_iff]
    intro o ho
    rw [(mem_glyphTable_or_glyphIndex ops metrics i font o ho).1]
    exact Bool.false_ne_true
  unfold metricsFields fontSection
  rw [List.append_assoc, List.filter_append, hrest]
  simp [fontMetricsRecord, List.filter, isMetricsField]

theorem metricsFields_atlasProperties (ops : DoubleOps D) (imageType : ImageType)
    (metrics : CppAtlasMetrics D) :
    metricsFields (atlasProperties ops imageType metrics) = [] := by
  cases imageType <;> simp [metricsFields, atlasProperties, isDistanceField, List.filter,
    isMetricsField]

/-- The writes of metrics records of an export: for every font below
`fontCount`, in order, its index, its line height, and its ascender, descender
and underline position multiplied by `yFactor`. -/
theorem metricsFields_exportText (ops : DoubleOps D) (fonts : Nat → FontGeometry D)
    (fontCount : Int) (imageType : ImageType) (metrics : CppAtlasMetrics D) :
    metricsFields (exportText ops fonts fontCount imageType metrics) =
      (List.range fontCount.toNat).flatMap (fun i =>
        [Out.metricsOpen i, Out.lineHeight (fonts i).metrics.lineHeight,
         Out.ascender (ops.mul (yFactor ops metrics) (fonts i).metrics.ascenderY),
         Out.descender (ops.mul (yFactor ops metrics) (fonts i).metrics.descenderY),
         Out.underlineY (ops.mul (yFactor ops metrics) (fonts i).metrics.underlineY)]) := by
  have ha := metricsFields_atlasProperties ops imageType metrics
  have hf : ∀ i, (fontSection ops metrics i (fonts i)).filter isMetricsField = _ :=
    fun i => metricsFields_fontSection ops metrics i (fonts i)
  unfold metricsFields at ha ⊢
  unfold exportText
  simp only [List.filter_append, ha, List.filter_flatMap, hf]
  simp [List.filter, isMetricsField]

theorem isDouble_one : isDouble 1 := rne_one

theorem isDouble_neg_quarter : isDouble (-1 / 4) := by
  have h1 : Nat.log2 1 = 0 := by simp [Nat.log2]
  have h4 : Nat.log2 4 = 2 := by simp [Nat.log2]
  have hn : ((-1 : ℚ) / 4).num = -1 := by norm_num
  have hd : ((-1 : ℚ) / 4).den = 4 := by norm_num
  have hf : floorLog2 (-1 / 4) = -2 := by
    rw [floorLog2, hn, hd]
    norm_num [h1, h4, abs_of_neg]
  have hq : quantum (-1 / 4) = -54 := by rw [quantum, hf]; norm_num
  have h : (-1 : ℚ) / 4 / (2 : ℚ) ^ (-54 : Int) = ((-4503599627370496 : Int) : ℚ) := by
    norm_num
  show rne (-1 / 4) = -1 / 4
  rw [rne, if_neg (by norm_num), hq, h, roundHalfEven_intCast]
  norm_num

theorem isDouble_neg_eighth : isDouble (-1 / 8) := by
  have h1 : Nat.log2 1 = 0 := by simp [Nat.log2]
  have h8 : Nat.log2 8 = 3 := by simp [Nat.log2]
  have hn : ((-1 : ℚ) / 8).num = -1 := by norm_num
  have hd : ((-1 : ℚ) / 8).den = 8 := by norm_num
  have hf : floorLog2 (-1 / 8) = -3 := by
    rw [floorLog2, hn, hd]
    norm_num [h1, h8, abs_of_neg]
  have hq : quantum (-1 / 8) = -55 := by rw [quantum, hf]; norm_num
  have h : (-1 : ℚ) / 8 / (2 : ℚ) ^ (-55 : Int) = ((-4503599627370496 : Int) : ℚ) := by
    norm_num
  show rne (-1 / 8) = -1 / 8
  rw [rne, if_neg (by norm_num), hq, h, roundHalfEven_intCast]
  norm_num

/-- C14: a successful export in double precision, of fonts whose ascender,
descender and underline position are doubles, writes for every font below
`fontCount`, in the order of the fonts, one metrics record with the index of
the font and its line height, ascender, descender and underline position
unchanged: the sign factor is 1. -/
theorem metrics_records_follow_fonts
    (fopenOk : String → Bool) (fonts : Nat → FontGeometry ℚ) (fontCount : Int)
    (imageType : ImageType) (metrics : CppAtlasMetrics ℚ) (filename : String)
    (kerning : Bool)
    (h : (exportCPP binary64 fopenOk fonts fontCount imageType metrics filename kerning).1 = true)
    (hd : ∀ i : Nat, (i : Int) < fontCount →
      isDouble (fonts i).metrics.ascenderY ∧ isDouble (fonts i).metrics.descenderY ∧
        isDouble (fonts i).metrics.underlineY) :
    (exportCPP binary64 fopenOk fonts fontCount imageType metrics filename kerning).2 =
      [FileAct.fopen filename] ++
        (exportText binary64 fonts fontCount imageType metrics).map FileAct.write ++
        [FileAct.fclose] ∧
    metricsFields (exportText binary64 fonts fontCount imageType metrics) =
      (List.range fontCount.toNat).flatMap (fun i =>
        [Out.metricsOpen i, Out.lineHeight (fonts i).metrics.lineHeight,
         Out.ascender (fonts i).metrics.ascenderY,
         Out.descender (fonts i).metrics.descenderY,
         Out.underlineY (fonts i).metrics.underlineY]) ∧
    (metricsFields (exportText binary64 fonts fontCount imageType metrics)).length =
      5 * fontCount.toNat ∧
    yFactor binary64 metrics = 1 := by
  obtain ⟨hy, _, heq⟩ := exportCPP_eq_of_success binary64 fopenOk fonts fontCount imageType
    metrics filename kerning h
  have hyf : yFactor binary64 metrics = 1 := by simp [yFactor, hy, binary64]
  have hfields : metricsFields (exportText binary64 fonts fontCount imageType metrics) =
      (List.range fontCount.toNat).flatMap (fun i =>
        [Out.metricsOpen i, Out.lineHeight (fonts i).metrics.lineHeight,
         Out.ascender (fonts i).metrics.ascenderY,
         Out.descender (fonts i).metrics.descenderY,
         Out.underlineY (fonts i).metrics.underlineY]) := by
    rw [metricsFields_exportText, hyf]
    apply List.flatMap_congr
    intro i hi
    obtain ⟨ha, hb, hu⟩ := hd i (by rw [List.mem_range] at hi; omega)
    have hmul : ∀ x : ℚ, isDouble x → binary64.mul 1 x = x := by
      intro x hx
      show rne (1 * x) = x
      rw [one_mul]; exact hx
    rw [hmul _ ha, hmul _ hb, hmul _ hu]
  refine ⟨by rw [heq], hfields, ?_, hyf⟩
  rw [hfields]
  generalize fontCount.toNat = n
  induction n with
  | zero => rfl
  | succ n ih =>
    rw [List.range_succ, List.flatMap_append, List.length_append, ih]
    simp only [List.flatMap_cons, List.flatMap_nil, List.append_nil, List.length_cons,
      List.length_nil]
    omega

/-- C14 at two copies of the font of the end-to-end scenario: two metrics
records, with the indices 0 and 1 and the metrics of the font. -/
theorem metrics_records_follow_fonts_witness :
    (exportCPP binary64 allWritable (fun _ => scenarioFont) 2 ImageType.MSDF
      (sampleMetrics 13 15) "atlas.cpp" false).1 = true ∧
    metricsFields (exportText binary64 (fun _ => scenarioFont) 2 ImageType.MSDF
        (sampleMetrics 13 15)) =
      [Out.metricsOpen 0, Out.lineHeight (5 / 4), Out.ascender 1, Out.descender (-1 / 4),
       Out.underlineY (-1 / 8),
       Out.metricsOpen 1, Out.lineHeight (5 / 4), Out.ascender 1, Out.descender (-1 / 4),
       Out.underlineY (-1 / 8)] := by
  have hs : (exportCPP binary64 allWritable (fun _ => scenarioFont) 2 ImageType.MSDF
      (sampleMetrics 13 15) "atlas.cpp" false).1 = true := rfl
  have t := metrics_records_follow_fonts allWritable (fun _ => scenarioFont) 2 ImageType.MSDF
    (sampleMetrics 13 15) "atlas.cpp" false hs
    (fun _ _ => ⟨isDouble_one, isDouble_neg_quarter, isDouble_neg_eighth⟩)
  refine ⟨hs, t.2.1.trans ?_⟩
  simp [List.range_succ, scenarioFont, sampleFont]

/-! ## The divisors of the normalisation and the TOP_DOWN branch -/

theorem checked64_div_ofInt_isSome (x : Option ℚ) (n : Int) (hx : x.isSome = true)
    (hn : n ≠ 0) : (checked64.div x (checked64.ofInt n)).isSome = true := by
  obtain ⟨a, rfl⟩ := Option.isSome_iff_exists.1 hx
  have hq : (n : ℚ) ≠ 0 := by exact_mod_cast hn
  simp [checked64, hq]

theorem checked64_div_ofInt_zero (x : Option ℚ) (n : Int) (hn : n = 0) :
    checked64.div x (checked64.ofInt n) = none := by
  subst hn
  cases x <;> simp [checked64]

theorem checked64_sub_ofInt_isSome (x : Option ℚ) (n : Int) (hx : x.isSome = true) :
    (checked64.sub (checked64.ofInt n) x).isSome = true := by
  obtain ⟨a, rfl⟩ := Option.isSome_iff_exists.1 hx
  simp [checked64]

/-- C18: the divisors of the normalisation of the atlas bounds are `width - 1` and
`height - 1`. With a width and a height of at least 2 both are positive and
every value of an atlas-bounds field of a glyph with a defined atlas box is
defined, under either convention: no division by zero takes place. With a
width of 1 or a height of 1 the divisor is zero and every atlas-bounds field
written has a value that is the result of a division by zero. -/
theorem atlas_divisors_nonzero (metrics : CppAtlasMetrics (Option ℚ))
    (glyph : GlyphGeometry (Option ℚ))
    (hl : glyph.atlasBounds.l.isSome = true) (hb : glyph.atlasBounds.b.isSome = true)
    (hr : glyph.atlasBounds.r.isSome = true) (ht : glyph.atlasBounds.t.isSome = true) :
    (2 ≤ metrics.width → 2 ≤ metrics.height →
      0 < metrics.width - 1 ∧ 0 < metrics.height - 1 ∧
      ∀ o ∈ atlasBoundsField checked64 metrics glyph, ∀ v ∈ outValues o, v.isSome = true) ∧
    (metrics.width = 1 → metrics.width - 1 = 0 ∧
      ∀ o ∈ atlasBoundsField checked64 metrics glyph, none ∈ outValues o) ∧
    (metrics.height = 1 → metrics.height - 1 = 0 ∧
      ∀ o ∈ atlasBoundsField checked64 metrics glyph, none ∈ outValues o) := by
  refine ⟨?_, ?_, ?_⟩
  · intro hw hh
    have hw0 : metrics.width - 1 ≠ 0 := by omega
    have hh0 : metrics.height - 1 ≠ 0 := by omega
    refine ⟨by omega, by omega, ?_⟩
    intro o ho v hv
    rcases mem_atlasBoundsField checked64 metrics glyph o ho with ⟨_, rfl⟩ | ⟨_, rfl⟩
    · simp only [outValues, List.mem_cons, List.mem_singleton, List.mem_nil_iff,
        or_false] at hv
      rcases hv with rfl | rfl | rfl | rfl
      · exact checked64_div_ofInt_isSome _ _ hl hw0
      · exact checked64_div_ofInt_isSome _ _ hb hh0
      · exact checked64_div_ofInt_isSome _ _ hr hw0
      · exact checked64_div_ofInt_isSome _ _ ht hh0
    · simp only [outValues, List.mem_cons, List.mem_singleton, List.mem_nil_iff,
        or_false] at hv
      rcases hv with rfl | rfl | rfl | rfl
      · exact checked64_div_ofInt_isSome _ _ hl hw0
      · exact checked64_div_ofInt_isSome _ _ (checked64_sub_ofInt_isSome _ _ ht) hh0
      · exact checked64_div_ofInt_isSome _ _ hr hw0
      · exact checked64_div_ofInt_isSome _ _ (checked64_sub_ofInt_isSome _ _ hb) hh0
  · intro hw
    have hw0 : metrics.width - 1 = 0 := by omega
    refine ⟨hw0, ?_⟩
    intro o ho
    rcases mem_atlasBoundsField checked64 metrics glyph o ho with ⟨_, rfl⟩ | ⟨_, rfl⟩ <;>
      simp [outValues, checked64_div_ofInt_zero _ _ hw0]
  · intro hh
    have hh0 : metrics.height - 1 = 0 := by omega
    refine ⟨hh0, ?_⟩
    intro o ho
    rcases mem_atlasBoundsField checked64 metrics glyph o ho with ⟨_, rfl⟩ | ⟨_, rfl⟩ <;>
      simp [outValues, checked64_div_ofInt_zero _ _ hh0]

/-- C18 at the glyph of the end-to-end scenario: in the atlas of 13 by 15 pixels
the divisors are positive and the four atlas bounds are defined, in an atlas of
1 by 15 pixels the left bound is the result of a division by zero. -/
theorem atlas_divisors_nonzero_witness :
    ((0 : Int) < 13 - 1 ∧ (0 : Int) < 15 - 1 ∧
      ∀ o ∈ atlasBoundsField checked64 (checkedMetrics 13 15 YDirection.BOTTOM_UP) checkedGlyph,
        ∀ v ∈ outValues o, v.isSome = true) ∧
    atlasBoundsField checked64 (checkedMetrics 13 15 YDirection.BOTTOM_UP) checkedGlyph ≠ [] ∧
    ∀ o ∈ atlasBoundsField checked64 (checkedMetrics 1 15 YDirection.BOTTOM_UP) checkedGlyph,
      none ∈ outValues o :=
  ⟨(atlas_divisors_nonzero (checkedMetrics 13 15 YDirection.BOTTOM_UP) checkedGlyph
      rfl rfl rfl rfl).1 (by decide) (by decide),
   by simp [atlasBoundsField, anyNonzero, checked64, checkedGlyph, checkedMetrics],
   ((atlas_divisors_nonzero (checkedMetrics 1 15 YDirection.BOTTOM_UP) checkedGlyph
      rfl rfl rfl rfl).2.1 rfl).2⟩

/-- C20: under TOP_DOWN the entry of a glyph has, for a plane box that is not
all zero, the one plane-bounds field `left, top, right, bottom` with the values
`l, -t, r, -b`, and, for an atlas box that is not all zero, the one
atlas-bounds field `left, top, right, bottom` with the values `l / (width - 1)`,
`(height - t) / (height - 1)`, `r / (width - 1)`, `(height - b) / (height - 1)`,
computed in `double`; for a box that is all zero there is no such field. -/
theorem top_down_entry_fields (ops : DoubleOps D) (metrics : CppAtlasMetrics D)
    (firstGlyph : Bool) (glyph : GlyphGeometry D)
    (hy : metrics.yDirection = YDirection.TOP_DOWN) :
    planeBoundsFields (glyphEntry ops metrics firstGlyph glyph) =
      (if anyNonzero ops glyph.planeBounds then
        [Out.planeBoundsTopDown glyph.planeBounds.l (ops.neg glyph.planeBounds.t)
          glyph.planeBounds.r (ops.neg glyph.planeBounds.b)]
      else []) ∧
    atlasBoundsFields (glyphEntry ops metrics firstGlyph glyph) =
      (if anyNonzero ops glyph.atlasBounds then
        [Out.atlasBoundsTopDown
          (ops.div glyph.atlasBounds.l (ops.ofInt (metrics.width - 1)))
          (ops.div (ops.sub (ops.ofInt metrics.height) glyph.atlasBounds.t)
            (ops.ofInt (metrics.height - 1)))
          (ops.div glyph.atlasBounds.r (ops.ofInt (metrics.width - 1)))
          (ops.div (ops.sub (ops.ofInt metrics.height) glyph.atlasBounds.b)
            (ops.ofInt (metrics.height - 1)))]
      else []) := by
  rw [planeBoundsFields_glyphEntry, atlasBoundsFields_glyphEntry]
  simp [planeBoundsField, atlasBoundsField, hy]

/-- C20 at the glyph of the end-to-end scenario in the top-down atlas of 13 by
15 pixels: plane bounds (0, -(3/4), 1/2, -0) and atlas bounds with the
vertical values (15 - 14) / 14 and (15 - 0) / 14. -/
theorem top_down_entry_fields_witness :
    topDownMetrics.yDirection = YDirection.TOP_DOWN ∧
    planeBoundsFields (glyphEntry binary64 topDownMetrics true
        (sampleGlyph 65 ⟨0, 0, 12, 14⟩)) =
      [Out.planeBoundsTopDown 0 (-(3 / 4)) (1 / 2) (-0)] ∧
    atlasBoundsFields (glyphEntry binary64 topDownMetrics true
        (sampleGlyph 65 ⟨0, 0, 12, 14⟩)) =
      [Out.atlasBoundsTopDown (rne (0 / 12)) (rne (rne (15 - 14) / 14)) (rne (12 / 12))
        (rne (rne (15 - 0) / 14))] := by
  have t := top_down_entry_fields binary64 topDownMetrics true (sampleGlyph 65 ⟨0, 0, 12, 14⟩)
    rfl
  refine ⟨rfl, t.1.trans ?_, t.2.trans ?_⟩
  · simp [anyNonzero, binary64, sampleGlyph]
  · simp [anyNonzero, binary64, sampleGlyph, topDownMetrics, sampleMetrics]

/-! ## Safety of the escaped text -/

theorem splitToken_append (tok rest : List Nat) (h : isToken tok = true) :
    splitToken (tok ++ rest) = some (tok, rest) := by
  rcases tok with _ | ⟨a, _ | ⟨b, _ | ⟨c, _ | ⟨d, _ | ⟨e, _ | ⟨f, _ | ⟨g, t⟩⟩⟩⟩⟩⟩⟩
  · simp [isToken, isEscape, isPlainByte] at h
  · simp only [isToken, isEscape, isPlainByte, Bool.false_or, Bool.and_eq_true,
      decide_eq_true_eq] at h
    obtain ⟨⟨h32, h34⟩, h92⟩ := h
    simp [splitToken, h92, h32, h34]
  · simp only [isToken, isEscape, isPlainByte, Bool.or_false, Bool.and_eq_true,
      Bool.or_eq_true, decide_eq_true_eq] at h
    obtain ⟨rfl, hb⟩ := h
    simp only [splitToken, List.cons_append, List.nil_append, if_true]
    rw [if_pos (by tauto)]
  · simp [isToken, isEscape, isPlainByte] at h
  · simp [isToken, isEscape, isPlainByte] at h
  · simp [isToken, isEscape, isPlainByte] at h
  · simp only [isToken, isEscape, isPlainByte, Bool.or_false, Bool.and_eq_true,
      decide_eq_true_eq] at h
    obtain ⟨⟨⟨⟨⟨rfl, rfl⟩, rfl⟩, rfl⟩, h1⟩, h2⟩ := h
    simp [splitToken, h1, h2]
  · simp [isToken, isEscape, isPlainByte] at h

theorem ne_nil_of_isToken (tok : List Nat) (h : isToken tok = true) : tok ≠ [] := by
  rintro rfl
  simp [isToken, isEscape, isPlainByte] at h

/-- A text has at most one division into tokens. -/
theorem tokens_unique (toks1 toks2 : List (List Nat))
    (h1 : ∀ tok ∈ toks1, isToken tok = true) (h2 : ∀ tok ∈ toks2, isToken tok = true)
    (heq : toks1.flatten = toks2.flatten) : toks1 = toks2 := by
  induction toks1 generalizing toks2 with
  | nil =>
    cases toks2 with
    | nil => rfl
    | cons t2 ts2 =>
      have hne := ne_nil_of_isToken t2 (h2 t2 (List.mem_cons_self _ _))
      simp only [List.flatten_nil, List.flatten_cons] at heq
      have := congrArg List.length heq
      simp only [List.length_nil, List.length_append] at this
      have hpos := List.length_pos.2 hne
      omega
  | cons t1 ts1 ih =>
    cases toks2 with
    | nil =>
      have hne := ne_nil_of_isToken t1 (h1 t1 (List.mem_cons_self _ _))
      simp only [List.flatten_nil, List.flatten_cons] at heq
      have := congrArg List.length heq
      simp only [List.length_nil, List.length_append] at this
      have hpos := List.length_pos.2 hne
      omega
    | cons t2 ts2 =>
      simp only [List.flatten_cons] at heq
      have s1 := splitToken_append t1 ts1.flatten (h1 t1 (List.mem_cons_self _ _))
      have s2 := splitToken_append t2 ts2.flatten (h2 t2 (List.mem_cons_self _ _))
      rw [heq, s2] at s1
      have hp := Option.some.inj s1
      have ht : t2 = t1 := congrArg Prod.fst hp
      have hr : ts2.flatten = ts1.flatten := congrArg Prod.snd hp
      rw [ht, ih ts2 (fun tok hm => h1 tok (List.mem_cons_of_mem _ hm))
        (fun tok hm => h2 tok (List.mem_cons_of_mem _ hm)) hr.symm]

theorem isToken_escapeByteSpec (c : Nat) (hc : c ≠ 0) : isToken (escapeByteSpec c) = true := by
  by_cases hctl : c ≤ 31
  · interval_cases c
    all_goals first
      | exact absurd rfl hc
      | decide
  · by_cases h34 : c = 34
    · subst h34; decide
    by_cases h92 : c = 92
    · subst h92; decide
    have e : escapeByteSpec c = [c] := by
      unfold escapeByteSpec
      rw [if_neg h92, if_neg h34, if_neg (by omega), if_neg (by omega), if_neg (by omega),
        if_neg (by omega)]
    rw [e]
    simp only [isToken, isEscape, isPlainByte, Bool.false_or, Bool.and_eq_true,
      decide_eq_true_eq]
    exact ⟨⟨by omega, h34⟩, h92⟩

theorem escapeByteSpec_eq_quote_iff (c : Nat) : escapeByteSpec c = [92, 34] ↔ c = 34 := by
  constructor
  · intro h
    unfold escapeByteSpec at h
    split_ifs at h with h1 h2 <;> first | exact h2 | simp at h
  · rintro rfl; rfl

theorem bytes_of_token (tok : List Nat) (h : isToken tok = true) :
    (∀ b ∈ tok, 32 ≤ b) ∧ (34 ∈ tok → tok = [92, 34]) ∧ (92 ∈ tok → isEscape tok = true) := by
  rcases tok with _ | ⟨a, _ | ⟨b, _ | ⟨c, _ | ⟨d, _ | ⟨e, _ | ⟨f, _ | ⟨g, t⟩⟩⟩⟩⟩⟩⟩
  · simp [isToken, isEscape, isPlainByte] at h
  · simp only [isToken, isEscape, isPlainByte, Bool.false_or, Bool.and_eq_true,
      decide_eq_true_eq] at h
    obtain ⟨⟨h32, h34⟩, h92⟩ := h
    refine ⟨?_, ?_, ?_⟩
    · intro x hx; simp only [List.mem_singleton] at hx; omega
    · intro hx; simp only [List.mem_singleton] at hx; omega
    · intro hx; simp only [List.mem_singleton] at hx; omega
  · simp only [isToken, isEscape, isPlainByte, Bool.or_false, Bool.and_eq_true,
      Bool.or_eq_true, decide_eq_true_eq] at h
    obtain ⟨rfl, hb⟩ := h
    refine ⟨?_, ?_, ?_⟩
    · intro x hx
      simp only [List.mem_cons, List.mem_singleton, List.mem_nil_iff, or_false] at hx
      omega
    · intro hx
      simp only [List.mem_cons, List.mem_singleton, List.mem_nil_iff, or_false] at hx
      have : b = 34 := by omega
      rw [this]
    · intro _
      simpa [isEscape] using hb
  · simp [isToken, isEscape, isPlainByte] at h
  · simp [isToken, isEscape, isPlainByte] at h
  · simp [isToken, isEscape, isPlainByte] at h
  · have h0 := h
    simp only [isToken, isEscape, isPlainByte, Bool.or_false, Bool.and_eq_true,
      decide_eq_true_eq, isLowerHexDigit, Bool.or_eq_true] at h
    obtain ⟨⟨⟨⟨⟨rfl, rfl⟩, rfl⟩, rfl⟩, h1⟩, h2⟩ := h
    refine ⟨?_, ?_, ?_⟩
    · intro x hx
      simp only [List.mem_cons, List.mem_singleton, List.mem_nil_iff, or_false] at hx
      omega
    · intro hx
      simp only [List.mem_cons, List.mem_singleton, List.mem_nil_iff, or_false] at hx
      omega
    · intro _
      simpa [isToken, isPlainByte] using h0
  · simp [isToken, isEscape, isPlainByte] at h

/-- C17: for a string `s` without a zero byte, the escape of `s` has no byte
below 0x20; it is the sequence of the images of the bytes of `s`, each of them
a token, that is an escape or a plain byte, and the image of a byte is the
escape of the double quote only for a double quote; a token with a double quote
in it is that escape and a token with a backslash in it is an escape; and
every division of the text into tokens is this one. -/
theorem escapeCppString_is_literal_safe (s : List Nat) (hs : ∀ c ∈ s, c ≠ 0) :
    (∀ b ∈ escapeCppString s, 32 ≤ b) ∧
    escapeCppString s = (s.map escapeByteSpec).flatten ∧
    (∀ c ∈ s, isToken (escapeByteSpec c) = true ∧ (escapeByteSpec c = [92, 34] ↔ c = 34)) ∧
    (∀ tok : List Nat, isToken tok = true →
      (34 ∈ tok → tok = [92, 34]) ∧ (92 ∈ tok → isEscape tok = true)) ∧
    (∀ toks : List (List Nat), (∀ tok ∈ toks, isToken tok = true) →
      toks.flatten = escapeCppString s → toks = s.map escapeByteSpec) := by
  have hflat : escapeCppString s = (s.map escapeByteSpec).flatten := by
    rw [escapeCppString_eq, cstr_of_null_free s hs]
    rfl
  have htok : ∀ tok ∈ s.map escapeByteSpec, isToken tok = true := by
    intro tok hm
    obtain ⟨c, hc, rfl⟩ := List.mem_map.1 hm
    exact isToken_escapeByteSpec c (hs c hc)
  refine ⟨?_, hflat, ?_, ?_, ?_⟩
  · intro b hb
    rw [hflat, List.mem_flatten] at hb
    obtain ⟨tok, hm, hbt⟩ := hb
    exact (bytes_of_token tok (htok tok hm)).1 b hbt
  · intro c hc
    exact ⟨isToken_escapeByteSpec c (hs c hc), escapeByteSpec_eq_quote_iff c⟩
  · intro tok ht
    exact (bytes_of_token tok ht).2
  · intro toks ht heq
    exact tokens_unique toks (s.map escapeByteSpec) ht htok (heq.trans hflat)

/-- C17 at the string of a double quote, a backslash, ESC and `A`: its escape
has the four tokens of the images of these bytes and no other division into
tokens. -/
theorem escapeCppString_is_literal_safe_witness :
    (∀ c ∈ [34, 92, 27, 65], c ≠ 0) ∧
    escapeCppString [34, 92, 27, 65] = [92, 34, 92, 92, 92, 117, 48, 48, 49, 98, 65] ∧
    ∀ toks : List (List Nat), (∀ tok ∈ toks, isToken tok = true) →
      toks.flatten = escapeCppString [34, 92, 27, 65] →
      toks = [[92, 34], [92, 92], [92, 117, 48, 48, 49, 98], [65]] := by
  have hs : ∀ c ∈ [34, 92, 27, 65], c ≠ 0 := by decide
  have t := escapeCppString_is_literal_safe [34, 92, 27, 65] hs
  refine ⟨hs, by decide, ?_⟩
  intro toks ht heq
  exact (t.2.2.2.2 toks ht heq).trans (by decide)

/-! ## The index and the table, entry by entry -/

/-- C4: for a font whose codepoints are unsigned 32-bit values, the index has
as many entries as the glyph table, and its k-th entry has the value k and,
as key of the map of line 180, whose key type is `uint32_t`, the codepoint of
the k-th table entry: the two enumerations agree entry by entry. -/
theorem index_entries_pair_table_codepoints (ops : DoubleOps D)
    (metrics : CppAtlasMetrics D) (i : Int) (font : FontGeometry D)
    (hcp : ∀ glyph ∈ font.glyphs, glyph.codepoint < 4294967296)
    (hlen : (includedGlyphs font.glyphs).length ≤ 2147483647) :
    (indexEntries (glyphIndex font)).length =
      (tableCodepoints (glyphTable ops metrics i font)).length ∧
    (indexEntries (glyphIndex font)).map (fun entry => (toUInt32 entry.1, entry.2)) =
      (List.enumFrom 0 (tableCodepoints (glyphTable ops metrics i font))).map
        (fun p => (p.2, (p.1 : Int))) ∧
    (∀ (k : Nat) (entry : Int × Int), (indexEntries (glyphIndex font))[k]? = some entry →
      entry.2 = (k : Int) ∧
        (tableCodepoints (glyphTable ops metrics i font))[k]? = some (toUInt32 entry.1)) := by
  have hidx := indexEntries_glyphIndex font hlen
  have htab := tableCodepoints_glyphTable ops metrics i font
  have hmap : (indexEntries (glyphIndex font)).map (fun entry => (toUInt32 entry.1, entry.2)) =
      (List.enumFrom 0 (tableCodepoints (glyphTable ops metrics i font))).map
        (fun p => (p.2, (p.1 : Int))) := by
    rw [hidx, htab, List.enumFrom_map, List.map_map, List.map_map]
    apply List.map_congr_left
    rintro ⟨p, glyph⟩ hmem
    have hin : glyph ∈ includedGlyphs font.glyphs :=
      List.getElem?_mem (List.mk_mem_enumFrom_iff_le_and_getElem?_sub.1 hmem).2
    have hlt := hcp glyph ((mem_includedGlyphs glyph font.glyphs).1 hin).1
    simp only [Function.comp, Prod.map, id, toUInt32_wrapInt32 glyph.codepoint hlt]
  refine ⟨?_, hmap, ?_⟩
  · rw [hidx, htab]; simp
  · intro k entry hk
    have h1 := congrArg (fun l => l[k]?) hmap
    simp only [List.getElem?_map, hk, Option.map_some', List.getElem?_enumFrom] at h1
    cases hq : (tableCodepoints (glyphTable ops metrics i font))[k]? with
    | none => rw [hq] at h1; simp at h1
    | some c =>
      rw [hq] at h1
      simp only [Option.map_some', Option.some.injEq, Prod.mk.injEq] at h1
      refine ⟨?_, ?_⟩
      · rw [h1.2]; simp
      · rw [h1.1]

/-- C4 at a font with the codepoints 65, 0 and 2^31: two table entries and two
index entries, whose keys, read as `uint32_t`, are 65 and 2147483648, at the
positions 0 and 1. -/
theorem index_entries_pair_table_codepoints_witness :
    (∀ glyph ∈ (sampleFont [sampleGlyph 65 ⟨0, 0, 12, 14⟩, sampleLigature,
      sampleGlyph 2147483648 ⟨0, 0, 12, 14⟩]).glyphs, glyph.codepoint < 4294967296) ∧
    tableCodepoints (glyphTable binary64 (sampleMetrics 13 15) 0
      (sampleFont [sampleGlyph 65 ⟨0, 0, 12, 14⟩, sampleLigature,
        sampleGlyph 2147483648 ⟨0, 0, 12, 14⟩])) = [65, 2147483648] ∧
    (indexEntries (glyphIndex (sampleFont [sampleGlyph 65 ⟨0, 0, 12, 14⟩, sampleLigature,
      sampleGlyph 2147483648 ⟨0, 0, 12, 14⟩]))).map (fun entry => (toUInt32 entry.1, entry.2)) =
      [(65, 0), (2147483648, 1)] := by
  have hcp : ∀ glyph ∈ (sampleFont [sampleGlyph 65 ⟨0, 0, 12, 14⟩, sampleLigature,
      sampleGlyph 2147483648 ⟨0, 0, 12, 14⟩]).glyphs, glyph.codepoint < 4294967296 := by
    intro glyph hg
    simp only [sampleFont, List.mem_cons, List.mem_singleton, List.mem_nil_iff,
      or_false] at hg
    rcases hg with rfl | rfl | rfl <;> decide
  have hlen : (includedGlyphs (sampleFont [sampleGlyph 65 ⟨0, 0, 12, 14⟩, sampleLigature,
      sampleGlyph 2147483648 ⟨0, 0, 12, 14⟩]).glyphs).length ≤ 2147483647 := by
    simp [includedGlyphs, sampleFont, sampleGlyph, sampleLigature]
  have htab : tableCodepoints (glyphTable binary64 (sampleMetrics 13 15) 0
      (sampleFont [sampleGlyph 65 ⟨0, 0, 12, 14⟩, sampleLigature,
        sampleGlyph 2147483648 ⟨0, 0, 12, 14⟩])) = [65, 2147483648] := by
    rw [tableCodepoints_glyphTable]
    simp [includedGlyphs, sampleFont, sampleGlyph, sampleLigature]
  have t := index_entries_pair_table_codepoints binary64 (sampleMetrics 13 15) 0
    (sampleFont [sampleGlyph 65 ⟨0, 0, 12, 14⟩, sampleLigature,
      sampleGlyph 2147483648 ⟨0, 0, 12, 14⟩]) hcp hlen
  refine ⟨hcp, htab, ?_⟩
  rw [t.2.1, htab]
  rfl

/-! ## Rounding to binary64 and to 17 decimal digits -/

theorem roundHalfEven_sub_le (z : ℚ) : |(roundHalfEven z : ℚ) - z| ≤ 1 / 2 := by
  have h1 := Int.floor_le z
  have h2 := Int.lt_floor_add_one z
  unfold roundHalfEven
  simp only
  split_ifs with ha hb hc
  · rw [abs_le]; constructor <;> linarith
  · rw [abs_le]; push_cast; constructor <;> linarith
  · rw [abs_le]; constructor <;> linarith
  · rw [abs_le]; push_cast; constructor <;> linarith

theorem roundHalfEven_eq_of_abs_lt (z : ℚ) (m : Int) (h : |z - m| < 1 / 2) :
    roundHalfEven z = m := by
  rw [abs_lt] at h
  obtain ⟨h1, h2⟩ := h
  unfold roundHalfEven
  simp only
  by_cases hm : (m : ℚ) ≤ z
  · have hf : ⌊z⌋ = m := by
      rw [Int.floor_eq_iff]; constructor <;> linarith
    rw [hf, if_pos (by linarith)]
  · have hf : ⌊z⌋ = m - 1 := by
      rw [Int.floor_eq_iff]; push_cast; constructor <;> linarith
    rw [hf]
    push_cast
    rw [if_neg (by linarith), if_pos (by linarith)]
    ring

theorem abs_eq_natAbs_div_den (q : ℚ) : |q| = (q.num.natAbs : ℚ) / (q.den : ℚ) := by
  have h : q = (q.num : ℚ) / (q.den : ℚ) := (Rat.num_div_den q).symm
  have hd : (0 : ℚ) < (q.den : ℚ) := by exact_mod_cast q.den_pos
  conv_lhs => rw [h]
  rw [abs_div, abs_of_pos hd, Nat.cast_natAbs, Int.cast_abs]

theorem floorLog2_spec (q : ℚ) (hq : q ≠ 0) :
    (2 : ℚ) ^ floorLog2 q ≤ |q| ∧ |q| < (2 : ℚ) ^ (floorLog2 q + 1) := by
  have hn0 : q.num.natAbs ≠ 0 := by
    simpa [Int.natAbs_eq_zero] using hq
  have hd0 : q.den ≠ 0 := q.den_nz
  have habs := abs_eq_natAbs_div_den q
  have hdpos : (0 : ℚ) < (q.den : ℚ) := by exact_mod_cast q.den_pos
  have hn1 : ((2 : ℚ) ^ Nat.log2 q.num.natAbs) ≤ (q.num.natAbs : ℚ) := by
    exact_mod_cast Nat.log2_self_le hn0
  have hn2 : (q.num.natAbs : ℚ) < (2 : ℚ) ^ (Nat.log2 q.num.natAbs + 1) := by
    exact_mod_cast (Nat.lt_log2_self (n := q.num.natAbs))
  have hd1 : ((2 : ℚ) ^ Nat.log2 q.den) ≤ (q.den : ℚ) := by
    exact_mod_cast Nat.log2_self_le hd0
  have hd2 : (q.den : ℚ) < (2 : ℚ) ^ (Nat.log2 q.den + 1) := by
    exact_mod_cast (Nat.lt_log2_self (n := q.den))
  have h2 : (2 : ℚ) ≠ 0 := two_ne_zero
  have hpa : (0 : ℚ) < (2 : ℚ) ^ Nat.log2 q.num.natAbs := pow_pos two_pos _
  have hpb : (0 : ℚ) < (2 : ℚ) ^ Nat.log2 q.den := pow_pos two_pos _
  have he0 : (2 : ℚ) ^ ((Nat.log2 q.num.natAbs : Int) - (Nat.log2 q.den : Int)) =
      (2 : ℚ) ^ Nat.log2 q.num.natAbs / (2 : ℚ) ^ Nat.log2 q.den := by
    rw [zpow_sub₀ h2, zpow_natCast, zpow_natCast]
  unfold floorLog2
  simp only
  split_ifs with hc
  · refine ⟨hc, ?_⟩
    rw [zpow_add_one₀ h2, he0, habs, div_mul_eq_mul_div, div_lt_div_iff₀ hdpos hpb]
    calc (q.num.natAbs : ℚ) * (2 : ℚ) ^ Nat.log2 q.den
        ≤ (q.num.natAbs : ℚ) * (q.den : ℚ) := by
          apply mul_le_mul_of_nonneg_left hd1 (Nat.cast_nonneg _)
      _ < (2 : ℚ) ^ (Nat.log2 q.num.natAbs + 1) * (q.den : ℚ) := by
          apply mul_lt_mul_of_pos_right hn2 hdpos
      _ = (2 : ℚ) ^ Nat.log2 q.num.natAbs * 2 * (q.den : ℚ) := by rw [pow_succ]
  · have hc2 := lt_of_not_le hc
    refine ⟨?_, by simpa using hc2⟩
    rw [zpow_sub_one₀ h2, he0, habs, div_mul_eq_mul_div, div_le_div_iff₀ hpb hdpos]
    have h2inv : (2 : ℚ)⁻¹ * (q.den : ℚ) ≤ (2 : ℚ) ^ Nat.log2 q.den := by
      rw [pow_succ] at hd2; linarith
    calc (2 : ℚ) ^ Nat.log2 q.num.natAbs * (2 : ℚ)⁻¹ * (q.den : ℚ)
        = (2 : ℚ) ^ Nat.log2 q.num.natAbs * ((2 : ℚ)⁻¹ * (q.den : ℚ)) := by ring
      _ ≤ (2 : ℚ) ^ Nat.log2 q.num.natAbs * (2 : ℚ) ^ Nat.log2 q.den := by
          apply mul_le_mul_of_nonneg_left h2inv hpa.le
      _ ≤ (q.num.natAbs : ℚ) * (2 : ℚ) ^ Nat.log2 q.den := by
          apply mul_le_mul_of_nonneg_right hn1 hpb.le

theorem floorLog2_eq (q : ℚ) (e : Int) (hq : q ≠ 0) (h1 : (2 : ℚ) ^ e ≤ |q|)
    (h2 : |q| < (2 : ℚ) ^ (e + 1)) : floorLog2 q = e := by
  obtain ⟨s1, s2⟩ := floorLog2_spec q hq
  have a : floorLog2 q < e + 1 :=
    (zpow_lt_zpow_iff_right₀ (by norm_num : (1 : ℚ) < 2)).1 (lt_of_le_of_lt s1 h2)
  have b : e < floorLog2 q + 1 :=
    (zpow_lt_zpow_iff_right₀ (by norm_num : (1 : ℚ) < 2)).1 (lt_of_le_of_lt h1 s2)
  omega

theorem rne_eq_of_quantum (y : ℚ) (hy : y ≠ 0) (m : Int)
    (h : |y - m * (2 : ℚ) ^ quantum y| < (2 : ℚ) ^ quantum y / 2) :
    rne y = m * (2 : ℚ) ^ quantum y := by
  have hu : (0 : ℚ) < (2 : ℚ) ^ quantum y := zpow_pos two_pos _
  have hz : |y / (2 : ℚ) ^ quantum y - m| < 1 / 2 := by
    have : y / (2 : ℚ) ^ quantum y - m = (y - m * (2 : ℚ) ^ quantum y) / (2 : ℚ) ^ quantum y := by
      field_simp
      ring
    rw [this, abs_div, abs_of_pos hu, div_lt_iff₀ hu]
    linarith
  rw [rne, if_neg hy, roundHalfEven_eq_of_abs_lt _ m hz]

theorem rne_eq_of_close (x y : ℚ) (hx : isDouble x)
    (hxy : |y - x| ≤ |x| / (2 * 10 ^ 16)) : rne y = x := by
  by_cases hx0 : x = 0
  · subst hx0
    have h0 : |y - 0| ≤ 0 := by simpa using hxy
    have hy : y = 0 := by simpa using abs_nonpos_iff.1 h0
    rw [hy, rne_zero]
  have hxm : ∃ m : Int, x = (m : ℚ) * (2 : ℚ) ^ quantum x := by
    have h : rne x = x := hx
    unfold rne at h
    rw [if_neg hx0] at h
    exact ⟨_, h.symm⟩
  obtain ⟨m, hxm⟩ := hxm
  have h2 : (2 : ℚ) ≠ 0 := two_ne_zero
  have h12 : (1 : ℚ) < 2 := by norm_num
  have hu : (0 : ℚ) < (2 : ℚ) ^ quantum x := zpow_pos two_pos _
  obtain ⟨s1, s2⟩ := floorLog2_spec x hx0
  have hqx : quantum x = max (floorLog2 x - 52) (-1074) := rfl
  have hk1 : floorLog2 x - 52 ≤ quantum x := le_max_left _ _
  have hk2 : -1074 ≤ quantum x := le_max_right _ _
  have hm0 : m ≠ 0 := by
    rintro rfl
    apply hx0
    rw [hxm]; simp
  have habsx : |x| = |(m : ℚ)| * (2 : ℚ) ^ quantum x := by
    conv_lhs => rw [hxm]
    rw [abs_mul, abs_of_pos hu]
  have hm1 : (1 : ℚ) ≤ |(m : ℚ)| := by
    have : (1 : Int) ≤ |m| := Int.one_le_abs hm0
    exact_mod_cast this
  have hke : quantum x ≤ floorLog2 x := by
    have hlt : (2 : ℚ) ^ quantum x < (2 : ℚ) ^ (floorLog2 x + 1) := by
      calc (2 : ℚ) ^ quantum x = 1 * (2 : ℚ) ^ quantum x := (one_mul _).symm
        _ ≤ |(m : ℚ)| * (2 : ℚ) ^ quantum x := mul_le_mul_of_nonneg_right hm1 hu.le
        _ = |x| := habsx.symm
        _ < _ := s2
    have := (zpow_lt_zpow_iff_right₀ h12).1 hlt
    omega
  obtain ⟨j, hj⟩ := Int.eq_ofNat_of_zero_le (by omega : 0 ≤ floorLog2 x - quantum x)
  have hj52 : j ≤ 52 := by omega
  have hpe : (2 : ℚ) ^ floorLog2 x = (2 : ℚ) ^ j * (2 : ℚ) ^ quantum x := by
    rw [show floorLog2 x = (j : Int) + quantum x by omega, zpow_add₀ h2, zpow_natCast]
  have hpe1 : (2 : ℚ) ^ (floorLog2 x + 1) = (2 : ℚ) ^ (j + 1) * (2 : ℚ) ^ quantum x := by
    rw [zpow_add_one₀ h2, hpe, pow_succ]; ring
  have hM1q : (2 : ℚ) ^ j ≤ |(m : ℚ)| := by
    have : (2 : ℚ) ^ j * (2 : ℚ) ^ quantum x ≤ |(m : ℚ)| * (2 : ℚ) ^ quantum x := by
      rw [← hpe, ← habsx]; exact s1
    exact le_of_mul_le_mul_right this hu
  have hM2q : |(m : ℚ)| < (2 : ℚ) ^ (j + 1) := by
    have : |(m : ℚ)| * (2 : ℚ) ^ quantum x < (2 : ℚ) ^ (j + 1) * (2 : ℚ) ^ quantum x := by
      rw [← hpe1, ← habsx]; exact s2
    exact lt_of_mul_lt_mul_right this hu.le
  have hM1 : (2 : Int) ^ j ≤ |m| := by exact_mod_cast hM1q
  have hM2 : |m| < (2 : Int) ^ (j + 1) := by exact_mod_cast hM2q
  have hp53 : (2 : Int) ^ (j + 1) ≤ 2 ^ 53 :=
    pow_le_pow_right₀ (by norm_num) (by omega)
  have ha16 : |(m : ℚ)| < 10 ^ 16 := by
    have : |m| < (10 : Int) ^ 16 := by
      have : (2 : Int) ^ 53 < 10 ^ 16 := by norm_num
      omega
    exact_mod_cast this
  have hd : |y - x| * (2 * 10 ^ 16) ≤ |(m : ℚ)| * (2 : ℚ) ^ quantum x := by
    rw [← habsx]
    exact (le_div_iff₀ (by norm_num)).1 hxy
  have hdu : |y - x| < (2 : ℚ) ^ quantum x / 2 := by
    have : |(m : ℚ)| * (2 : ℚ) ^ quantum x < 10 ^ 16 * (2 : ℚ) ^ quantum x :=
      mul_lt_mul_of_pos_right ha16 hu
    linarith
  have hylo : |x| - |y - x| ≤ |y| := by
    have := abs_sub_abs_le_abs_sub x y
    rw [abs_sub_comm x y] at this
    linarith
  have hyhi : |y| ≤ |x| + |y - x| := by
    have := abs_sub_abs_le_abs_sub y x
    linarith
  have hupper : |y| < (2 : ℚ) ^ (floorLog2 x + 1) := by
    have hle : |m| ≤ (2 : Int) ^ (j + 1) - 1 := by omega
    have hleq : |(m : ℚ)| ≤ (2 : ℚ) ^ (j + 1) - 1 := by exact_mod_cast hle
    have : |x| ≤ ((2 : ℚ) ^ (j + 1) - 1) * (2 : ℚ) ^ quantum x := by
      rw [habsx]; exact mul_le_mul_of_nonneg_right hleq hu.le
    rw [hpe1]
    linarith
  have finish : ∀ hy0 : y ≠ 0, quantum y = quantum x → rne y = x := by
    intro hy0 hq
    have := rne_eq_of_quantum y hy0 m (by rw [hq, ← hxm]; exact hdu)
    rw [this, hq, ← hxm]
  by_cases hlow : (2 : ℚ) ^ floorLog2 x ≤ |y|
  · have hy0 : y ≠ 0 := by
      intro h
      rw [h, abs_zero] at hlow
      exact absurd (zpow_pos two_pos (floorLog2 x)) (not_lt.2 hlow)
    have hfy : floorLog2 y = floorLog2 x := floorLog2_eq y _ hy0 hlow hupper
    exact finish hy0 (by unfold quantum; rw [hfy])
  · have hlow2 := lt_of_not_le hlow
    have hMeq : |m| = (2 : Int) ^ j := by
      by_contra hne
      have hge : (2 : Int) ^ j + 1 ≤ |m| := by omega
      have hgeq : (2 : ℚ) ^ j + 1 ≤ |(m : ℚ)| := by exact_mod_cast hge
      have : ((2 : ℚ) ^ j + 1) * (2 : ℚ) ^ quantum x ≤ |x| := by
        rw [habsx]; exact mul_le_mul_of_nonneg_right hgeq hu.le
      rw [hpe] at hlow2
      linarith
    have hMeqq : |(m : ℚ)| = (2 : ℚ) ^ j := by exact_mod_cast hMeq
    have hxe : |x| = (2 : ℚ) ^ floorLog2 x := by rw [habsx, hMeqq, hpe]
    have hpos : (0 : ℚ) < (2 : ℚ) ^ floorLog2 x := zpow_pos two_pos _
    have hd2 : |y - x| * (2 * 10 ^ 16) ≤ (2 : ℚ) ^ floorLog2 x := by
      rw [← hxe]; exact (le_div_iff₀ (by norm_num)).1 hxy
    have hylo2 : (2 : ℚ) ^ (floorLog2 x - 1) ≤ |y| := by
      rw [zpow_sub_one₀ h2]
      rw [hxe] at hylo
      linarith
    have hy0 : y ≠ 0 := by
      intro h
      rw [h, abs_zero] at hylo2
      exact absurd (zpow_pos two_pos (floorLog2 x - 1)) (not_lt.2 hylo2)
    have hfy : floorLog2 y = floorLog2 x - 1 :=
      floorLog2_eq y _ hy0 hylo2 (by rw [sub_add_cancel]; exact hlow2)
    have hqy : quantum y = max (floorLog2 x - 1 - 52) (-1074) := by
      unfold quantum; rw [hfy]
    rcases le_total (floorLog2 x - 52) (-1074) with hsub | hnorm
    · apply finish hy0
      rw [hqy, hqx, max_eq_right hsub, max_eq_right (by omega)]
    · by_cases hedge : floorLog2 x - 52 = -1074
      · apply finish hy0
        rw [hqy, hqx, max_eq_right (le_of_eq hedge), max_eq_right (by omega)]
      · have hqx2 : quantum x = floorLog2 x - 52 := by rw [hqx, max_eq_left hnorm]
        have hqy2 : quantum y = quantum x - 1 := by
          rw [hqy, hqx2, max_eq_left (by omega)]; ring
        have hj2 : j = 52 := by omega
        have hu2 : (2 : ℚ) ^ quantum y = (2 : ℚ) ^ quantum x / 2 := by
          rw [hqy2, zpow_sub_one₀ h2]; ring
        have hx2 : x = ((2 * m : Int) : ℚ) * (2 : ℚ) ^ quantum y := by
          rw [hu2]; push_cast; linarith [hxm]
        have hmj : |(m : ℚ)| = 2 ^ 52 := by rw [hMeqq, hj2]
        have hd4 : |y - x| < (2 : ℚ) ^ quantum x / 4 := by
          rw [hmj] at hd
          have : (2 : ℚ) ^ 52 * (2 : ℚ) ^ quantum x < 10 ^ 16 / 2 * (2 : ℚ) ^ quantum x :=
            mul_lt_mul_of_pos_right (by norm_num) hu
          linarith
        have := rne_eq_of_quantum y hy0 (2 * m) (by rw [← hx2, hu2]; linarith)
        rw [this, ← hx2]

theorem format17_close (q : ℚ) : |format17 q - q| ≤ |q| / (2 * 10 ^ 16) := by
  by_cases hq : q = 0
  · simp [format17, hq]
  have hw : (0 : ℚ) < (10 : ℚ) ^ (floorLog10 q - 16) := zpow_pos (by norm_num) _
  have habs : (0 : ℚ) < |q| := abs_pos.2 hq
  have hlog : (10 : ℚ) ^ floorLog10 q ≤ |q| := by
    have := Int.zpow_log_le_self (b := 10) (r := |q|) (by norm_num) habs
    simpa [floorLog10] using this
  have hr := roundHalfEven_sub_le (q / (10 : ℚ) ^ (floorLog10 q - 16))
  have heq : format17 q - q =
      ((roundHalfEven (q / (10 : ℚ) ^ (floorLog10 q - 16)) : ℚ) -
        q / (10 : ℚ) ^ (floorLog10 q - 16)) * (10 : ℚ) ^ (floorLog10 q - 16) := by
    rw [format17, if_neg hq]
    field_simp
  have hw2 : (10 : ℚ) ^ (floorLog10 q - 16) = (10 : ℚ) ^ floorLog10 q / 10 ^ 16 := by
    rw [zpow_sub₀ (by norm_num)]; norm_num
  rw [heq, abs_mul, abs_of_pos hw]
  calc |(roundHalfEven (q / (10 : ℚ) ^ (floorLog10 q - 16)) : ℚ) -
          q / (10 : ℚ) ^ (floorLog10 q - 16)| * (10 : ℚ) ^ (floorLog10 q - 16)
      ≤ 1 / 2 * (10 : ℚ) ^ (floorLog10 q - 16) := mul_le_mul_of_nonneg_right hr hw.le
    _ = (10 : ℚ) ^ floorLog10 q / (2 * 10 ^ 16) := by rw [hw2]; ring
    _ ≤ |q| / (2 * 10 ^ 16) := by
        apply div_le_div_of_nonneg_right hlog (by norm_num)

theorem parseDouble_format17 (x : ℚ) (hx : isDouble x) : parseDouble (format17 x) = x :=
  rne_eq_of_close x (format17 x) hx (format17_close x)

theorem isDouble_rne (q : ℚ) : isDouble (rne q) := by
  show rne (rne q) = rne q
  by_cases hq : q = 0
  · rw [hq, rne_zero, rne_zero]
  by_cases hx0 : rne q = 0
  · rw [hx0, rne_zero]
  have h2 : (2 : ℚ) ≠ 0 := two_ne_zero
  have h12 : (1 : ℚ) < 2 := by norm_num
  have hu : (0 : ℚ) < (2 : ℚ) ^ quantum q := zpow_pos two_pos _
  obtain ⟨s1, s2⟩ := floorLog2_spec q hq
  have hk1 : floorLog2 q - 52 ≤ quantum q := le_max_left _ _
  have hk2 : -1074 ≤ quantum q := le_max_right _ _
  have hdef : rne q = (roundHalfEven (q / (2 : ℚ) ^ quantum q) : ℚ) * (2 : ℚ) ^ quantum q := by
    rw [rne, if_neg hq]
  generalize hm : roundHalfEven (q / (2 : ℚ) ^ quantum q) = m at hdef
  have hz : |q / (2 : ℚ) ^ quantum q| < 2 ^ 53 := by
    rw [abs_div, abs_of_pos hu, div_lt_iff₀ hu]
    have h53 : (2 : ℚ) ^ (floorLog2 q + 1) ≤ 2 ^ 53 * (2 : ℚ) ^ quantum q := by
      have : (2 : ℚ) ^ (floorLog2 q + 1) ≤ (2 : ℚ) ^ ((53 : Int) + quantum q) :=
        zpow_le_zpow_right₀ h12.le (by omega)
      have e53 : (2 : ℚ) ^ (53 : Int) = 2 ^ 53 := by norm_num
      rw [zpow_add₀ h2 53 (quantum q), e53] at this
      exact this
    exact lt_of_lt_of_le s2 h53
  have hmz := roundHalfEven_sub_le (q / (2 : ℚ) ^ quantum q)
  rw [hm] at hmz
  have hmq : |(m : ℚ)| < 2 ^ 53 + 1 := by
    have h1 := abs_sub_abs_le_abs_sub (m : ℚ) (q / (2 : ℚ) ^ quantum q)
    linarith
  have hmi : |m| ≤ 2 ^ 53 := by
    have : |m| < 2 ^ 53 + 1 := by exact_mod_cast hmq
    omega
  have habsx : |rne q| = |(m : ℚ)| * (2 : ℚ) ^ quantum q := by
    rw [hdef, abs_mul, abs_of_pos hu]
  obtain ⟨t1, t2⟩ := floorLog2_spec (rne q) hx0
  have hqx : quantum (rne q) = max (floorLog2 (rne q) - 52) (-1074) := rfl
  by_cases hedge : |m| = 2 ^ 53
  · have hmqe : |(m : ℚ)| = 2 ^ 53 := by exact_mod_cast hedge
    have hxe : |rne q| = (2 : ℚ) ^ ((53 : Int) + quantum q) := by
      rw [habsx, hmqe, zpow_add₀ h2]; norm_num
    have hf : floorLog2 (rne q) = 53 + quantum q :=
      floorLog2_eq _ _ hx0 (le_of_eq hxe.symm)
        (by rw [hxe]; exact (zpow_lt_zpow_iff_right₀ h12).2 (by omega))
    have hq2 : quantum (rne q) = quantum q + 1 := by
      rw [hqx, hf, max_eq_left (by omega)]; ring
    have hm2 : ∃ n : Int, m = 2 * n := by
      rcases (abs_eq (by norm_num : (0 : Int) ≤ 2 ^ 53)).1 hedge with h | h
      · exact ⟨2 ^ 52, by rw [h]; norm_num⟩
      · exact ⟨-2 ^ 52, by rw [h]; norm_num⟩
    obtain ⟨n, hn⟩ := hm2
    have hx2 : rne q = (n : ℚ) * (2 : ℚ) ^ quantum (rne q) := by
      rw [hq2, zpow_add_one₀ h2]
      have : (m : ℚ) = 2 * (n : ℚ) := by exact_mod_cast hn
      rw [hdef, this]
      ring
    have := rne_eq_of_quantum (rne q) hx0 n (by
      rw [← hx2, sub_self, abs_zero]
      exact half_pos (zpow_pos two_pos _))
    rw [this, ← hx2]
  · have hlt : |m| ≤ 2 ^ 53 - 1 := by omega
    have hltq : |(m : ℚ)| ≤ 2 ^ 53 - 1 := by exact_mod_cast hlt
    have hxlt : |rne q| < (2 : ℚ) ^ ((53 : Int) + quantum q) := by
      rw [habsx, zpow_add₀ h2]
      have : |(m : ℚ)| * (2 : ℚ) ^ quantum q ≤ (2 ^ 53 - 1) * (2 : ℚ) ^ quantum q :=
        mul_le_mul_of_nonneg_right hltq hu.le
      have e53 : (2 : ℚ) ^ (53 : Int) = 2 ^ 53 := by norm_num
      rw [e53]
      linarith
    have hf : floorLog2 (rne q) < 53 + quantum q :=
      (zpow_lt_zpow_iff_right₀ h12).1 (lt_of_le_of_lt t1 hxlt)
    have hq2 : quantum (rne q) ≤ quantum q := by
      rw [hqx]; exact max_le (by omega) hk2
    obtain ⟨t, ht⟩ := Int.eq_ofNat_of_zero_le (by omega : 0 ≤ quantum q - quantum (rne q))
    have hpow : (2 : ℚ) ^ quantum q = (2 : ℚ) ^ t * (2 : ℚ) ^ quantum (rne q) := by
      have : quantum q = (t : Int) + quantum (rne q) := by omega
      conv_lhs => rw [this]
      rw [zpow_add₀ h2, zpow_natCast]
    have hx2 : rne q = ((m * 2 ^ t : Int) : ℚ) * (2 : ℚ) ^ quantum (rne q) := by
      push_cast
      rw [mul_assoc, ← hpow]
      exact hdef
    have := rne_eq_of_quantum (rne q) hx0 (m * 2 ^ t) (by
      rw [← hx2, sub_self, abs_zero]
      exact half_pos (zpow_pos two_pos _))
    rw [this, ← hx2]


theorem floorLog10_eq (q : ℚ) (e : Int) (hq : q ≠ 0) (h1 : (10 : ℚ) ^ e ≤ |q|)
    (h2 : |q| < (10 : ℚ) ^ (e + 1)) : floorLog10 q = e := by
  have habs : (0 : ℚ) < |q| := abs_pos.2 hq
  have a : e ≤ Int.log 10 |q| :=
    (Int.zpow_le_iff_le_log (b := 10) (by norm_num) habs).1 (by simpa using h1)
  have b : Int.log 10 |q| < e + 1 :=
    (Int.lt_zpow_iff_log_lt (b := 10) (by norm_num) habs).1 (by simpa using h2)
  unfold floorLog10
  omega

theorem format17_digits (q : ℚ) :
    ∃ n : Int, |n| ≤ 10 ^ 17 ∧ format17 q = (n : ℚ) * (10 : ℚ) ^ (floorLog10 q - 16) := by
  by_cases hq : q = 0
  · exact ⟨0, by norm_num, by simp [format17, hq]⟩
  refine ⟨roundHalfEven (q / (10 : ℚ) ^ (floorLog10 q - 16)), ?_, by rw [format17, if_neg hq]⟩
  have hw : (0 : ℚ) < (10 : ℚ) ^ (floorLog10 q - 16) := zpow_pos (by norm_num) _
  have hlt : |q| < (10 : ℚ) ^ (floorLog10 q + 1) := by
    have := Int.lt_zpow_succ_log_self (b := 10) (by norm_num) |q|
    simpa [floorLog10] using this
  have hz : |q / (10 : ℚ) ^ (floorLog10 q - 16)| < 10 ^ 17 := by
    rw [abs_div, abs_of_pos hw, div_lt_iff₀ hw]
    have : (10 : ℚ) ^ (floorLog10 q + 1) = 10 ^ 17 * (10 : ℚ) ^ (floorLog10 q - 16) := by
      rw [show floorLog10 q + 1 = (17 : Int) + (floorLog10 q - 16) by ring,
        zpow_add₀ (by norm_num)]
      norm_num
    rw [← this]; exact hlt
  have hr := roundHalfEven_sub_le (q / (10 : ℚ) ^ (floorLog10 q - 16))
  have h1 := abs_sub_abs_le_abs_sub
    ((roundHalfEven (q / (10 : ℚ) ^ (floorLog10 q - 16)) : Int) : ℚ)
    (q / (10 : ℚ) ^ (floorLog10 q - 16))
  have hq2 : |((roundHalfEven (q / (10 : ℚ) ^ (floorLog10 q - 16)) : Int) : ℚ)| < 10 ^ 17 + 1 := by
    linarith
  have : |roundHalfEven (q / (10 : ℚ) ^ (floorLog10 q - 16))| < 10 ^ 17 + 1 := by
    exact_mod_cast hq2
  omega

theorem isDouble_zero : isDouble 0 := rne_zero

theorem isDouble_int_mul_zpow (m k : Int) (hm : |m| < 2 ^ 53) (hk : -1074 ≤ k) :
    isDouble ((m : ℚ) * (2 : ℚ) ^ k) := by
  show rne ((m : ℚ) * (2 : ℚ) ^ k) = (m : ℚ) * (2 : ℚ) ^ k
  have h2 : (2 : ℚ) ≠ 0 := two_ne_zero
  have h12 : (1 : ℚ) < 2 := by norm_num
  have hu : (0 : ℚ) < (2 : ℚ) ^ k := zpow_pos two_pos _
  by_cases hm0 : m = 0
  · rw [hm0]; simp [rne_zero]
  have hx0 : (m : ℚ) * (2 : ℚ) ^ k ≠ 0 := by
    apply mul_ne_zero _ hu.ne'
    exact_mod_cast hm0
  obtain ⟨t1, _⟩ := floorLog2_spec _ hx0
  have hmq : |(m : ℚ)| ≤ 2 ^ 53 - 1 := by
    have : |m| ≤ 2 ^ 53 - 1 := by omega
    exact_mod_cast this
  have hxlt : |(m : ℚ) * (2 : ℚ) ^ k| < (2 : ℚ) ^ ((53 : Int) + k) := by
    have e53 : (2 : ℚ) ^ (53 : Int) = 2 ^ 53 := by norm_num
    rw [abs_mul, abs_of_pos hu, zpow_add₀ h2, e53]
    have : |(m : ℚ)| * (2 : ℚ) ^ k ≤ (2 ^ 53 - 1) * (2 : ℚ) ^ k :=
      mul_le_mul_of_nonneg_right hmq hu.le
    linarith
  have hf : floorLog2 ((m : ℚ) * (2 : ℚ) ^ k) < 53 + k :=
    (zpow_lt_zpow_iff_right₀ h12).1 (lt_of_le_of_lt t1 hxlt)
  have hq2 : quantum ((m : ℚ) * (2 : ℚ) ^ k) ≤ k := max_le (by omega) hk
  obtain ⟨t, ht⟩ := Int.eq_ofNat_of_zero_le
    (by omega : 0 ≤ k - quantum ((m : ℚ) * (2 : ℚ) ^ k))
  have hpow : (2 : ℚ) ^ k = (2 : ℚ) ^ t * (2 : ℚ) ^ quantum ((m : ℚ) * (2 : ℚ) ^ k) := by
    have : k = (t : Int) + quantum ((m : ℚ) * (2 : ℚ) ^ k) := by omega
    conv_lhs => rw [this]
    rw [zpow_add₀ h2, zpow_natCast]
  have hx2 : (m : ℚ) * (2 : ℚ) ^ k =
      ((m * 2 ^ t : Int) : ℚ) * (2 : ℚ) ^ quantum ((m : ℚ) * (2 : ℚ) ^ k) := by
    push_cast
    rw [mul_assoc, ← hpow]
  have := rne_eq_of_quantum _ hx0 (m * 2 ^ t) (by
    rw [← hx2, sub_self, abs_zero]
    exact half_pos (zpow_pos two_pos _))
  rw [this, ← hx2]

theorem isDouble_third : isDouble (6004799503160661 / 18014398509481984) := by
  have := isDouble_int_mul_zpow 6004799503160661 (-54) (by norm_num) (by norm_num)
  have e : ((6004799503160661 : Int) : ℚ) * (2 : ℚ) ^ (-54 : Int) =
      6004799503160661 / 18014398509481984 := by norm_num
  rwa [e] at this

theorem format17_third :
    format17 (6004799503160661 / 18014398509481984) = 33333333333333331 / 100000000000000000 := by
  have hf : floorLog10 (6004799503160661 / 18014398509481984) = -1 :=
    floorLog10_eq _ _ (by norm_num) (by norm_num [abs_of_pos]) (by norm_num [abs_of_pos])
  have hr : roundHalfEven ((6004799503160661 : ℚ) / 18014398509481984 /
      (10 : ℚ) ^ ((-1 : Int) - 16)) = 33333333333333331 :=
    roundHalfEven_eq_of_abs_lt _ _ (by norm_num [abs_lt])
  rw [format17, if_neg (by norm_num), hf, hr]
  norm_num

/-! ## The round trip of the fields of an export -/

/-- In double precision and under BOTTOM_UP, every `double` written by an export
whose size, line heights, advances and plane bounds are doubles is a double:
the other values written are results of operations, which are rounded. -/
theorem isDouble_of_mem_exportText (fonts : Nat → FontGeometry ℚ) (fontCount : Int)
    (imageType : ImageType) (metrics : CppAtlasMetrics ℚ)
    (hy : metrics.yDirection = YDirection.BOTTOM_UP)
    (hsize : isDouble metrics.size)
    (hfonts : ∀ i : Nat, (i : Int) < fontCount →
      isDouble (fonts i).metrics.lineHeight ∧
      ∀ glyph ∈ (fonts i).glyphs, isDouble glyph.advance ∧
        isDouble glyph.planeBounds.l ∧ isDouble glyph.planeBounds.b ∧
        isDouble glyph.planeBounds.r ∧ isDouble glyph.planeBounds.t)
    (o : Out ℚ) (ho : o ∈ exportText binary64 fonts fontCount imageType metrics)
    (v : ℚ) (hv : v ∈ outValues o) : isDouble v := by
  simp only [exportText, List.mem_append, List.mem_singleton, List.mem_flatMap] at ho
  rcases ho with ((ho | ho) | ⟨i, hi, ho⟩) | ho
  · subst ho; simp [outValues] at hv
  · simp only [atlasProperties, List.mem_append, List.mem_cons, List.mem_singleton,
      List.mem_nil_iff, or_false] at ho
    rcases ho with (ho | ho) | ho | ho | ho | ho
    · subst ho; simp [outValues] at hv
    · split_ifs at ho
      · simp only [List.mem_cons, List.mem_singleton, List.mem_nil_iff, or_false] at ho
        rcases ho with ho | ho
        · subst ho
          simp only [outValues, List.mem_singleton] at hv
          subst hv; exact isDouble_rne _
        · subst ho
          simp only [outValues, List.mem_singleton] at hv
          subst hv; exact isDouble_rne _
      · simp at ho
    · subst ho
      simp only [outValues, List.mem_singleton] at hv
      subst hv; exact hsize
    · subst ho; simp [outValues] at hv
    · subst ho; simp [outValues] at hv
    · subst ho; simp [outValues] at hv
  · have hilt : (i : Int) < fontCount := by
      rw [List.mem_range] at hi; omega
    obtain ⟨hline, hglyphs⟩ := hfonts i hilt
    simp only [fontSection, List.append_assoc, List.mem_append] at ho
    rcases ho with ho | ho | ho
    · simp only [fontMetricsRecord, List.mem_cons, List.mem_singleton, List.mem_nil_iff,
        or_false] at ho
      rcases ho with ho | ho | ho | ho | ho | ho
      · subst ho; simp [outValues] at hv
      · subst ho
        simp only [outValues, List.mem_singleton] at hv
        subst hv; exact hline
      · subst ho
        simp only [outValues, List.mem_singleton] at hv
        subst hv; exact isDouble_rne _
      · subst ho
        simp only [outValues, List.mem_singleton] at hv
        subst hv; exact isDouble_rne _
      · subst ho
        simp only [outValues, List.mem_singleton] at hv
        subst hv; exact isDouble_rne _
      · subst ho; simp [outValues] at hv
    · simp only [glyphTable, List.mem_cons] at ho
      rcases ho with ho | ho
      · subst ho; simp [outValues] at hv
      · obtain ⟨first, glyph, hg, _, hm⟩ :=
          mem_glyphTableLoop binary64 metrics (fonts i).glyphs true o ho
        obtain ⟨hadv, hl, hb, hr, ht⟩ := hglyphs glyph hg
        rcases mem_glyphEntry binary64 metrics first glyph o hm with h | h | h | h | h | h
        · subst h; simp [outValues] at hv
        · subst h; simp [outValues] at hv
        · subst h
          simp only [outValues, List.mem_singleton] at hv
          subst hv; exact hadv
        · rcases mem_planeBoundsField binary64 metrics glyph o h with ⟨_, h⟩ | ⟨htd, _⟩
          · subst h
            simp only [outValues, List.mem_cons, List.mem_singleton, List.mem_nil_iff,
              or_false] at hv
            rcases hv with rfl | rfl | rfl | rfl
            · exact hl
            · exact hb
            · exact hr
            · exact ht
          · rw [hy] at htd; exact YDirection.noConfusion htd
        · rcases mem_atlasBoundsField binary64 metrics glyph o h with ⟨_, h⟩ | ⟨htd, _⟩
          · subst h
            simp only [outValues, List.mem_cons, List.mem_singleton, List.mem_nil_iff,
              or_false] at hv
            rcases hv with rfl | rfl | rfl | rfl <;> exact isDouble_rne _
          · rw [hy] at htd; exact YDirection.noConfusion htd
        · subst h; simp [outValues] at hv
    · simp only [glyphIndex, List.mem_cons, List.mem_append, List.mem_singleton,
        List.mem_nil_iff, or_false] at ho
      rcases ho with ho | ho | ho
      · subst ho; simp [outValues] at hv
      · rcases mem_glyphIndexLoop (fonts i).glyphs 0 true o ho with ⟨_, h⟩ | ⟨_, _, h⟩ | h
        · subst h; simp [outValues] at hv
        · subst h; simp [outValues] at hv
        · subst h; simp [outValues] at hv
      · subst ho; simp [outValues] at hv
  · subst ho; simp [outValues] at hv

theorem rne_two_pow_1024 : rne ((2 : ℚ) ^ (1024 : Int)) = (2 : ℚ) ^ (1024 : Int) := by
  have h := isDouble_int_mul_zpow 1 1024 (by norm_num) (by norm_num)
  rw [Int.cast_one, one_mul] at h
  exact h

/-- C16 as stated fails: in an atlas whose distance range is from -2^1023 to
2^1023, two finite doubles, the field `distanceRange` is the difference
2^1024, which overflows; what is written for it is `inf`, no decimal of 17
significant digits. -/
theorem overflowing_field_has_no_decimal :
    FileAct.write (Out.distanceRange none) ∈
      (exportCPP overflow64 allWritable (fun _ => checkedFont) 1 ImageType.MSDF
        hugeRangeMetrics "atlas.cpp" false).2 ∧
    none ∈ outValues (Out.distanceRange (none : Option ℚ)) ∧
    ¬ ∃ text : ℚ, renderedDecimal none = some text := by
  have hsub : overflow64.sub hugeRangeMetrics.distanceRange.upper
      hugeRangeMetrics.distanceRange.lower = none := by
    have e : (2 : ℚ) ^ (1023 : Int) - -(2 : ℚ) ^ (1023 : Int) = (2 : ℚ) ^ (1024 : Int) := by
      rw [show (1024 : Int) = 1023 + 1 by norm_num, zpow_add_one₀ two_ne_zero]; ring
    show finite64 ((2 : ℚ) ^ (1023 : Int) - -(2 : ℚ) ^ (1023 : Int)) = none
    rw [e, finite64, rne_two_pow_1024, if_neg]
    rw [abs_of_pos (zpow_pos two_pos _)]
    exact lt_irrefl _
  refine ⟨?_, by simp [outValues], by simp [renderedDecimal]⟩
  have hmem : Out.distanceRange none ∈
      atlasProperties overflow64 ImageType.MSDF hugeRangeMetrics := by
    simp only [atlasProperties, isDistanceField, hsub]
    simp
  simp only [exportCPP, hugeRangeMetrics, allWritable]
  simp only [reduceCtorEq, if_false, not_true_eq_false, List.mem_append, List.mem_map,
    List.mem_singleton, FileAct.write.injEq, exists_eq_right, or_false, false_or]
  simp only [exportText, List.mem_append, List.mem_singleton]
  exact Or.inl (Or.inl (Or.inr hmem))

/-- C16 as amended: in a successful export in double precision whose size, line
heights, advances and plane bounds are finite doubles, every `double` written
is a finite double; the text `%.17g` writes for it has the value of the double
rounded to 17 significant decimal digits, and the double nearest to that value
is the double written. -/
theorem rendered_fields_round_trip
    (fopenOk : String → Bool) (fonts : Nat → FontGeometry ℚ) (fontCount : Int)
    (imageType : ImageType) (metrics : CppAtlasMetrics ℚ) (filename : String)
    (kerning : Bool)
    (h : (exportCPP binary64 fopenOk fonts fontCount imageType metrics filename kerning).1 = true)
    (hsize : isDouble metrics.size)
    (hfonts : ∀ i : Nat, (i : Int) < fontCount →
      isDouble (fonts i).metrics.lineHeight ∧
      ∀ glyph ∈ (fonts i).glyphs, isDouble glyph.advance ∧
        isDouble glyph.planeBounds.l ∧ isDouble glyph.planeBounds.b ∧
        isDouble glyph.planeBounds.r ∧ isDouble glyph.planeBounds.t)
    (o : Out ℚ)
    (ho : FileAct.write o ∈
      (exportCPP binary64 fopenOk fonts fontCount imageType metrics filename kerning).2)
    (v : ℚ) (hv : v ∈ outValues o) :
    isDouble v ∧
    (∃ n : Int, |n| ≤ 10 ^ 17 ∧ format17 v = (n : ℚ) * (10 : ℚ) ^ (floorLog10 v - 16)) ∧
    parseDouble (format17 v) = v := by
  obtain ⟨hy, _, heq⟩ := exportCPP_eq_of_success binary64 fopenOk fonts fontCount imageType
    metrics filename kerning h
  rw [heq] at ho
  simp only [List.mem_append, List.mem_map, List.mem_singleton, FileAct.write.injEq,
    exists_eq_right, reduceCtorEq, or_false, false_or] at ho
  have hd := isDouble_of_mem_exportText fonts fontCount imageType metrics hy hsize hfonts o ho
    v hv
  exact ⟨hd, format17_digits v, parseDouble_format17 v hd⟩

theorem isDouble_sample_values :
    isDouble 32 ∧ isDouble (5 / 4) ∧ isDouble (1 / 2) ∧ isDouble (3 / 4) := by
  have h32 := isDouble_int_mul_zpow 32 0 (by norm_num) (by norm_num)
  have h54 := isDouble_int_mul_zpow 5 (-2) (by norm_num) (by norm_num)
  have h12 := isDouble_int_mul_zpow 1 (-1) (by norm_num) (by norm_num)
  have h34 := isDouble_int_mul_zpow 3 (-2) (by norm_num) (by norm_num)
  have e32 : ((32 : Int) : ℚ) * (2 : ℚ) ^ (0 : Int) = 32 := by norm_num
  have e54 : ((5 : Int) : ℚ) * (2 : ℚ) ^ (-2 : Int) = 5 / 4 := by norm_num
  have e12 : ((1 : Int) : ℚ) * (2 : ℚ) ^ (-1 : Int) = 1 / 2 := by norm_num
  have e34 : ((3 : Int) : ℚ) * (2 : ℚ) ^ (-2 : Int) = 3 / 4 := by norm_num
  rw [e32] at h32
  rw [e54] at h54
  rw [e12] at h12
  rw [e34] at h34
  exact ⟨h32, h54, h12, h34⟩

/-- C16 at an atlas of width 4 with a glyph of the atlas box (1, 0, 0, 0): the
left bound written is the double nearest to 1/3, its text has the value
0.33333333333333331, and the double nearest to that value is the double
written. -/
theorem rendered_fields_round_trip_witness :
    FileAct.write (Out.atlasBoundsBottomUp (6004799503160661 / 18014398509481984) 0 0 0) ∈
      (exportCPP binary64 allWritable (fun _ => sampleFont [sampleGlyph 65 ⟨1, 0, 0, 0⟩]) 1
        ImageType.MSDF (sampleMetrics 4 2) "atlas.cpp" false).2 ∧
    format17 (6004799503160661 / 18014398509481984) =
      33333333333333331 / 100000000000000000 ∧
    parseDouble (33333333333333331 / 100000000000000000) =
      6004799503160661 / 18014398509481984 := by
  have hs : (exportCPP binary64 allWritable (fun _ => sampleFont [sampleGlyph 65 ⟨1, 0, 0, 0⟩])
      1 ImageType.MSDF (sampleMetrics 4 2) "atlas.cpp" false).1 = true := rfl
  obtain ⟨h32, h54, h12, h34⟩ := isDouble_sample_values
  have hfield : atlasBoundsField binary64 (sampleMetrics 4 2) (sampleGlyph 65 ⟨1, 0, 0, 0⟩) =
      [Out.atlasBoundsBottomUp (6004799503160661 / 18014398509481984) 0 0 0] := by
    have h3 : (((4 : Int) - 1 : Int) : ℚ) = 3 := by norm_num
    simp only [atlasBoundsField, anyNonzero, sampleGlyph, sampleMetrics, binary64, h3,
      zero_div, rne_zero, rne_third]
    simp
  have hentry : Out.atlasBoundsBottomUp (6004799503160661 / 18014398509481984) 0 0 0 ∈
      glyphEntry binary64 (sampleMetrics 4 2) true (sampleGlyph 65 ⟨1, 0, 0, 0⟩) := by
    simp only [glyphEntry, hfield]
    simp
  have htext : Out.atlasBoundsBottomUp (6004799503160661 / 18014398509481984) 0 0 0 ∈
      exportText binary64 (fun _ => sampleFont [sampleGlyph 65 ⟨1, 0, 0, 0⟩]) 1 ImageType.MSDF
        (sampleMetrics 4 2) := by
    have hsec : Out.atlasBoundsBottomUp (6004799503160661 / 18014398509481984) 0 0 0 ∈
        fontSection binary64 (sampleMetrics 4 2) 0 (sampleFont [sampleGlyph 65 ⟨1, 0, 0, 0⟩]) := by
      simp only [fontSection, glyphTable, List.mem_append, List.mem_cons]
      refine Or.inl (Or.inr (Or.inr ?_))
      have : glyphTableLoop binary64 (sampleMetrics 4 2) true
          (sampleFont [sampleGlyph 65 ⟨1, 0, 0, 0⟩]).glyphs =
          glyphEntry binary64 (sampleMetrics 4 2) true (sampleGlyph 65 ⟨1, 0, 0, 0⟩) ++ [] := by
        simp [sampleFont, glyphTableLoop, sampleGlyph]
      rw [this, List.append_nil]
      exact hentry
    simp only [exportText, List.mem_append, List.mem_flatMap]
    exact Or.inl (Or.inr ⟨0, by decide, hsec⟩)
  have hm : FileAct.write (Out.atlasBoundsBottomUp (6004799503160661 / 18014398509481984) 0 0 0) ∈
      (exportCPP binary64 allWritable (fun _ => sampleFont [sampleGlyph 65 ⟨1, 0, 0, 0⟩]) 1
        ImageType.MSDF (sampleMetrics 4 2) "atlas.cpp" false).2 := by
    rw [(exportCPP_eq_of_success binary64 allWritable _ 1 ImageType.MSDF (sampleMetrics 4 2)
      "atlas.cpp" false hs).2.2]
    simp only [List.mem_append, List.mem_map, List.mem_singleton, FileAct.write.injEq,
      exists_eq_right, reduceCtorEq, or_false, false_or]
    exact htext
  have t := rendered_fields_round_trip allWritable
    (fun _ => sampleFont [sampleGlyph 65 ⟨1, 0, 0, 0⟩]) 1 ImageType.MSDF (sampleMetrics 4 2)
    "atlas.cpp" false hs h32
    (by
      intro i _
      refine ⟨h54, ?_⟩
      intro glyph hg
      simp only [sampleFont, List.mem_singleton] at hg
      subst hg
      exact ⟨h12, isDouble_zero, isDouble_zero, h12, h34⟩)
    (Out.atlasBoundsBottomUp (6004799503160661 / 18014398509481984) 0 0 0) hm
    (6004799503160661 / 18014398509481984) (by simp [outValues])
  refine ⟨hm, format17_third, ?_⟩
  have := t.2.2
  rwa [format17_third] at this

end MsdfAtlas
